import Mathlib

/-!
# Display geometry of `src/core/display.cc`

A shallow embedding of `PCSX::Display` (the seven member functions of
`src/core/display.cc`) together with the three configuration values the code
reaches through `g_emulator->settings`, followed by theorems about it.

Number representation.
* `uint32_t` values are `Nat`; where the source computes in `uint32_t` the
  result is reduced `% 2 ^ 32` explicitly.
* `int` values are `Int`.  Every `int` the code computes from register values
  stays far inside the 32-bit range, so no wrap-around is modelled for them.
* `float` values are rationals: `toFloat` is the conversion `(float)n`, and the
  divisions by `1024.f` and `512.f` are divisions by powers of two, which are
  exact in binary floating point for the magnitudes that occur here.
-/

namespace PCSX

/-- The two values of `Emulator::SettingVideo` written by `setMode`. -/
inductive VideoType where
  | PSX_TYPE_NTSC
  | PSX_TYPE_PAL
  deriving DecidableEq, Repr

/-- The part of `g_emulator->settings` that `display.cc` reads or writes. -/
structure Settings where
  SettingLinearFiltering : Bool
  SettingAutoVideo : Bool
  SettingVideo : VideoType
  deriving DecidableEq, Repr

/-- An `OpenGL::ivec2`: two `int` components. -/
structure IVec2 where
  x : Int
  y : Int
  deriving DecidableEq, Repr

/-- An `OpenGL::vec2`: two `float` components, held as exact rationals. -/
structure Vec2 where
  x : ℚ
  y : ℚ
  deriving DecidableEq

/-- Modelled from the spec: the class declaration `core/display.h` is not among
the sources, so the member list is taken from the uses in `display.cc` and the
member types from the data model of the specification (section 3): `x1`, `x2`
are the 12-bit `rangeX1`, `rangeX2`; `y1`, `y2` the 10-bit `rangeY1`, `rangeY2`;
`m_drawMode` the 8-bit `drawMode`; `m_pal`, `m_rgb24`, `m_interlace` are
`isPal`, `is24Bit`, `isInterlaced`; `m_start`, `m_size` are `start`, `size`.
The unsigned members are `Nat`. -/
structure Display where
  x1 : Nat
  x2 : Nat
  y1 : Nat
  y2 : Nat
  m_enabled : Bool
  m_drawMode : Nat
  m_pal : Bool
  m_rgb24 : Bool
  m_interlace : Bool
  m_start : IVec2
  m_size : IVec2
  m_startNormalized : Vec2
  m_sizeNormalized : Vec2
  deriving DecidableEq

/-- Everything the member functions can observe or change: the `Display`
object and the global settings. -/
structure Machine where
  display : Display
  settings : Settings
  deriving DecidableEq

/-- Conversion `(float)n` of an `int` to IEEE-754 binary32 (round to nearest,
ties to even), as the exact rational value of the result.  Integers of
magnitude below `2 ^ 24` are converted exactly. -/
def toFloat (n : Int) : ℚ :=
  let a := n.natAbs
  if a < 2 ^ 24 then (n : ℚ)
  else
    let e := Nat.log2 a - 23
    let q := a / 2 ^ e
    let r := a % 2 ^ e
    let half := 2 ^ (e - 1)
    let q := if r > half ∨ (r = half ∧ q % 2 = 1) then q + 1 else q
    (if n < 0 then -1 else 1) * ((q * 2 ^ e : Nat) : ℚ)

/-- Conversion of an `int` to `uint32_t`. -/
def toU32 (i : Int) : Nat := (i % 2 ^ 32).toNat

/-- Conversion of a `uint32_t` to `int`. -/
def toI32 (n : Nat) : Int := if n % 2 ^ 32 < 2 ^ 31 then ((n % 2 ^ 32 : Nat) : Int) else ((n % 2 ^ 32 : Nat) : Int) - 2 ^ 32

namespace Display

/-- The table `dividers` local to `updateDispArea`. -/
def dividers : List Int := [10, 7, 8, 7, 5, 7, 4, 7]

/-- The local `horizontalRes` of `updateDispArea`. -/
def horizontalRes (m_drawMode : Nat) : Nat :=
  ((m_drawMode >>> 6) &&& 1) ||| ((m_drawMode &&& 3) <<< 1)

/-- The local `divider` of `updateDispArea`: `dividers[horizontalRes]`.  An
index outside the table, which C++ leaves undefined, reads as `0` here. -/
def divider (m_drawMode : Nat) : Int :=
  (dividers[horizontalRes m_drawMode]?).getD 0

/-- The local `cyclesPerScanline` of `updateDispArea`. -/
def cyclesPerScanline (m_pal : Bool) : Int := if m_pal then 3406 else 3413

/-- The local `totalScanlines` of `updateDispArea`. -/
def totalScanlines (m_pal : Bool) : Int := if m_pal then 314 else 263

/-- The local `height` of `updateDispArea` at the point where it is stored
into `m_size` (source lines 113-118). -/
def height (m_pal m_interlace : Bool) (y1 y2 : Nat) : Int :=
  let vertRangeStart : Int := min (y1 : Int) (totalScanlines m_pal)
  let vertRangeEnd : Int := min (y2 : Int) (totalScanlines m_pal)
  let height : Int := min (totalScanlines m_pal) (vertRangeEnd - vertRangeStart)
  if m_interlace then height * 2 else height

/-- The local `horizontalCycles` of `updateDispArea` (source lines 106-111 and
121); the subtraction is done in `int` and converted to `uint32_t`. -/
def horizontalCycles (m_drawMode : Nat) (m_pal : Bool) (x1 x2 : Nat) : Nat :=
  let horRangeStart : Int := min (x1 : Int) (cyclesPerScanline m_pal)
  let horRangeEnd : Int := min (x2 : Int) (cyclesPerScanline m_pal)
  -- Rounding
  let horRangeStart := (Int.tdiv horRangeStart (divider m_drawMode)) * divider m_drawMode
  let horRangeEnd := (Int.tdiv horRangeEnd (divider m_drawMode)) * divider m_drawMode
  if horRangeEnd > horRangeStart then toU32 (horRangeEnd - horRangeStart) else 0

/-- The local `width` of `updateDispArea` at the point where it is stored into
`m_size` (source line 122): `((horizontalCycles / divider) + 2) & ~3`, computed
in `uint32_t` and converted to `int`. -/
def width (m_drawMode : Nat) (m_pal : Bool) (x1 x2 : Nat) : Int :=
  toI32 ((((horizontalCycles m_drawMode m_pal x1 x2 / toU32 (divider m_drawMode)) + 2) % 2 ^ 32)
    &&& toU32 (-4))

/-- `PCSX::Display::updateDispArea`. -/
def updateDispArea (m : Machine) : Machine :=
  let d := m.display
  let width : Int := width d.m_drawMode d.m_pal d.x1 d.x2
  let height : Int := height d.m_pal d.m_interlace d.y1 d.y2
  -- Adjust dimensions before normalizing if we have linear filtering on
  let width2 := if m.settings.SettingLinearFiltering then width - 2 else width
  let height2 := if m.settings.SettingLinearFiltering then height - 2 else height
  { m with display :=
      { d with
        -- Store the true, unedited dimensions in m_size
        m_size := ⟨width, height⟩
        m_sizeNormalized := ⟨toFloat width2 / 1024, toFloat height2 / 512⟩ } }

/-- `PCSX::Display::setDisplayStart`. -/
def setDisplayStart (command : Nat) (m : Machine) : Machine :=
  let d := m.display
  let startX : Int := toI32 (command &&& 0x3fe)
  let startY : Int := toI32 ((command >>> 10) &&& 0x1ff)
  if startX ≠ d.m_start.x ∨ startY ≠ d.m_start.y then
    -- Adjust dimensions before normalizing if we have linear filtering on
    let startX2 := if m.settings.SettingLinearFiltering then startX + 1 else startX
    let startY2 := if m.settings.SettingLinearFiltering then startY + 1 else startY
    { m with display :=
        { d with
          m_start := ⟨startX, startY⟩
          m_startNormalized := ⟨toFloat startX2 / 1024, toFloat startY2 / 512⟩ } }
  else m

/-- `PCSX::Display::setHorizontalRange`. -/
def setHorizontalRange (command : Nat) (m : Machine) : Machine :=
  let newX1 := command &&& 0xfff
  let newX2 := (command >>> 12) &&& 0xfff
  if m.display.x1 ≠ newX1 ∨ m.display.x2 ≠ newX2 then
    updateDispArea { m with display := { m.display with x1 := newX1, x2 := newX2 } }
  else m

/-- `PCSX::Display::setVerticalRange`. -/
def setVerticalRange (command : Nat) (m : Machine) : Machine :=
  let newY1 := command &&& 0x3ff
  let newY2 := (command >>> 10) &&& 0x3ff
  if m.display.y1 ≠ newY1 ∨ m.display.y2 ≠ newY2 then
    updateDispArea { m with display := { m.display with y1 := newY1, y2 := newY2 } }
  else m

/-- `PCSX::Display::setMode`. -/
def setMode (command : Nat) (m : Machine) : Machine :=
  let newMode := command &&& 0xff
  if m.display.m_drawMode ≠ newMode then
    let m_pal := (newMode &&& 0x8) != 0
    let d : Display :=
      { m.display with
        m_drawMode := newMode
        m_pal := m_pal
        m_rgb24 := (newMode &&& 0x10) != 0
        m_interlace := (newMode &&& 0x20) != 0 }
    let settings : Settings :=
      if m.settings.SettingAutoVideo then
        if m_pal then { m.settings with SettingVideo := VideoType.PSX_TYPE_PAL }
        else { m.settings with SettingVideo := VideoType.PSX_TYPE_NTSC }
      else m.settings
    updateDispArea { display := d, settings := settings }
  else m

/-- `PCSX::Display::reset`. -/
def reset (m : Machine) : Machine :=
  let m : Machine :=
    { m with display :=
        { m.display with
          x1 := 0x200
          x2 := 0x200 + 256 * 10
          y1 := 0x10
          y2 := 0x10 + 0x240
          m_enabled := false } }
  let m := setMode 0 m
  let m := setDisplayStart 0 m
  updateDispArea m

/-- `PCSX::Display::setLinearFiltering`. -/
def setLinearFiltering (m : Machine) : Machine :=
  let d := m.display
  let setting := m.settings.SettingLinearFiltering
  -- If linear filtering is on, crop 1 row from the top & bottom, and 1 column from the left & right
  let width : Int := d.m_size.x - (if setting then 2 else 0)
  let height : Int := d.m_size.y - (if setting then 2 else 0)
  let startX : Int := d.m_start.x + (if setting then 1 else 0)
  let startY : Int := d.m_start.y + (if setting then 1 else 0)
  { m with display :=
      { d with
        m_sizeNormalized := ⟨toFloat width / 1024, toFloat height / 512⟩
        m_startNormalized := ⟨toFloat startX / 1024, toFloat startY / 512⟩ } }

/-- The flags cached from `m_drawMode` agree with its bits 3, 4 and 5. -/
def FlagsConsistent (d : Display) : Prop :=
  d.m_pal = d.m_drawMode.testBit 3 ∧
  d.m_rgb24 = d.m_drawMode.testBit 4 ∧
  d.m_interlace = d.m_drawMode.testBit 5

instance (d : Display) : Decidable (FlagsConsistent d) := by
  unfold FlagsConsistent
  infer_instance

/-- A concrete state used to instantiate the theorems below: mode `0x28` (PAL,
interlaced, divider 10), horizontal range `0x260 .. 0xc60`, vertical range
`16 .. 256`, display start `(2, 3)`, with `m_size` and the normalized pairs as
`updateDispArea` and `setDisplayStart` leave them without linear filtering. -/
def sampleMachine : Machine :=
  { display :=
      { x1 := 0x260, x2 := 0xc60, y1 := 16, y2 := 256, m_enabled := true, m_drawMode := 0x28,
        m_pal := true, m_rgb24 := false, m_interlace := true,
        m_start := ⟨2, 3⟩, m_size := ⟨256, 480⟩,
        m_startNormalized := ⟨2 / 1024, 3 / 512⟩, m_sizeNormalized := ⟨256 / 1024, 480 / 512⟩ },
    settings := ⟨false, false, VideoType.PSX_TYPE_NTSC⟩ }

/-- A state in which the user has selected PAL and enabled the automatic video
standard while the stored mode is already `0` (NTSC, flags consistent with the
mode); the ranges, start and size are those `reset` leaves. -/
def palSelectedMachine : Machine :=
  { display :=
      { x1 := 0x200, x2 := 0x200 + 256 * 10, y1 := 0x10, y2 := 0x10 + 0x240, m_enabled := false,
        m_drawMode := 0, m_pal := false, m_rgb24 := false, m_interlace := false,
        m_start := ⟨0, 0⟩, m_size := ⟨256, 247⟩,
        m_startNormalized := ⟨0, 0⟩, m_sizeNormalized := ⟨256 / 1024, 247 / 512⟩ },
    settings := ⟨false, true, VideoType.PSX_TYPE_PAL⟩ }

/-- The normalized pairs of `d` are the ones computed from its stored `m_start`
and `m_size` with linear filtering off: no adjustment before the division. -/
def NormalizedUnsmoothed (d : Display) : Prop :=
  d.m_startNormalized = ⟨toFloat d.m_start.x / 1024, toFloat d.m_start.y / 512⟩ ∧
  d.m_sizeNormalized = ⟨toFloat d.m_size.x / 1024, toFloat d.m_size.y / 512⟩

/-- The machine state with the linear-filtering setting set to `v`. -/
def withSmoothing (v : Bool) (m : Machine) : Machine :=
  { m with settings := { m.settings with SettingLinearFiltering := v } }

/-- A smoothing toggle as the caller performs it: the linear-filtering setting
is set to `v` and `setLinearFiltering` is called. -/
def toggleSmoothing (v : Bool) (m : Machine) : Machine :=
  setLinearFiltering (withSmoothing v m)

/-- The machine states reachable from a `reset` (of any prior state) by the four
setters, with any commands, and by smoothing toggles. -/
inductive Reachable : Machine → Prop where
  | boot (m : Machine) : Reachable (reset m)
  | displayStart (command : Nat) {m : Machine} :
      Reachable m → Reachable (setDisplayStart command m)
  | horizontalRange (command : Nat) {m : Machine} :
      Reachable m → Reachable (setHorizontalRange command m)
  | verticalRange (command : Nat) {m : Machine} :
      Reachable m → Reachable (setVerticalRange command m)
  | mode (command : Nat) {m : Machine} :
      Reachable m → Reachable (setMode command m)
  | smoothing (v : Bool) {m : Machine} :
      Reachable m → Reachable (toggleSmoothing v m)

/-- The stored `m_size` is the one `updateDispArea` computes from the current
registers and flags. -/
def SizeCurrent (m : Machine) : Prop :=
  m.display.m_size = (updateDispArea m).display.m_size

instance (m : Machine) : Decidable (SizeCurrent m) := by
  unfold SizeCurrent
  infer_instance

/-- The stored `m_sizeNormalized` is the one `setLinearFiltering` computes from
the stored `m_size` under the current linear-filtering setting. -/
def SizeNormalizedCurrent (m : Machine) : Prop :=
  m.display.m_sizeNormalized = (setLinearFiltering m).display.m_sizeNormalized

/-- A prior state whose `m_pal` is stale: the stored mode is `0` but `m_pal` is
set; the other members are those of `palSelectedMachine`. -/
def stalePalMachine : Machine :=
  { palSelectedMachine with
    display := { palSelectedMachine.display with m_pal := true } }

/-! ## Conversions and bit masks -/

theorem toI32_of_lt {n : Nat} (h : n < 2 ^ 31) : toI32 n = (n : Int) := by
  have hm : n % 2 ^ 32 = n := Nat.mod_eq_of_lt (by omega)
  unfold toI32
  rw [hm, if_pos h]

theorem toI32_and_mask (command mask : Nat) (h : mask < 2 ^ 31) :
    toI32 (command &&& mask) = ((command &&& mask : Nat) : Int) :=
  toI32_of_lt (lt_of_le_of_lt Nat.and_le_right h)

theorem and_even_mask_mod_two (command : Nat) : (command &&& 0x3fe) % 2 = 0 := by
  have h := Nat.and_pow_two_sub_one_eq_mod (command &&& 0x3fe) 1
  rw [Nat.and_assoc] at h
  simpa using h.symm

theorem and_ne_zero_eq_testBit (n i : Nat) : ((n &&& 2 ^ i) != 0) = n.testBit i := by
  rw [Nat.and_two_pow]
  cases n.testBit i <;> simp

/-! ## What `updateDispArea` leaves alone -/

@[simp]
theorem updateDispArea_settings (m : Machine) :
    (updateDispArea m).settings = m.settings := rfl

@[simp]
theorem updateDispArea_x1 (m : Machine) :
    (updateDispArea m).display.x1 = m.display.x1 := rfl

@[simp]
theorem updateDispArea_x2 (m : Machine) :
    (updateDispArea m).display.x2 = m.display.x2 := rfl

@[simp]
theorem updateDispArea_y1 (m : Machine) :
    (updateDispArea m).display.y1 = m.display.y1 := rfl

@[simp]
theorem updateDispArea_y2 (m : Machine) :
    (updateDispArea m).display.y2 = m.display.y2 := rfl

@[simp]
theorem updateDispArea_enabled (m : Machine) :
    (updateDispArea m).display.m_enabled = m.display.m_enabled := rfl

@[simp]
theorem updateDispArea_drawMode (m : Machine) :
    (updateDispArea m).display.m_drawMode = m.display.m_drawMode := rfl

@[simp]
theorem updateDispArea_pal (m : Machine) :
    (updateDispArea m).display.m_pal = m.display.m_pal := rfl

@[simp]
theorem updateDispArea_rgb24 (m : Machine) :
    (updateDispArea m).display.m_rgb24 = m.display.m_rgb24 := rfl

@[simp]
theorem updateDispArea_interlace (m : Machine) :
    (updateDispArea m).display.m_interlace = m.display.m_interlace := rfl

@[simp]
theorem updateDispArea_start (m : Machine) :
    (updateDispArea m).display.m_start = m.display.m_start := rfl

@[simp]
theorem updateDispArea_size (m : Machine) :
    (updateDispArea m).display.m_size =
      ⟨width m.display.m_drawMode m.display.m_pal m.display.x1 m.display.x2,
       height m.display.m_pal m.display.m_interlace m.display.y1 m.display.y2⟩ := rfl

/-! ## The four setters: the skipped write and the stored registers -/

theorem setDisplayStart_of_eq (command : Nat) (m : Machine)
    (h : m.display.m_start = ⟨toI32 (command &&& 0x3fe), toI32 ((command >>> 10) &&& 0x1ff)⟩) :
    setDisplayStart command m = m := by
  unfold setDisplayStart
  simp [h]

theorem setDisplayStart_start (command : Nat) (m : Machine) :
    (setDisplayStart command m).display.m_start =
      ⟨toI32 (command &&& 0x3fe), toI32 ((command >>> 10) &&& 0x1ff)⟩ := by
  unfold setDisplayStart
  by_cases h : toI32 (command &&& 0x3fe) ≠ m.display.m_start.x ∨
      toI32 ((command >>> 10) &&& 0x1ff) ≠ m.display.m_start.y
  · simp only [if_pos h]
  · simp only [if_neg h]
    have h1 : toI32 (command &&& 0x3fe) = m.display.m_start.x := by
      by_contra hc; exact h (Or.inl hc)
    have h2 : toI32 ((command >>> 10) &&& 0x1ff) = m.display.m_start.y := by
      by_contra hc; exact h (Or.inr hc)
    rw [h1, h2]

theorem setHorizontalRange_of_eq (command : Nat) (m : Machine)
    (h1 : m.display.x1 = command &&& 0xfff) (h2 : m.display.x2 = (command >>> 12) &&& 0xfff) :
    setHorizontalRange command m = m := by
  unfold setHorizontalRange
  simp [h1, h2]

theorem setHorizontalRange_range (command : Nat) (m : Machine) :
    (setHorizontalRange command m).display.x1 = command &&& 0xfff ∧
    (setHorizontalRange command m).display.x2 = (command >>> 12) &&& 0xfff := by
  unfold setHorizontalRange
  by_cases h : m.display.x1 ≠ command &&& 0xfff ∨ m.display.x2 ≠ (command >>> 12) &&& 0xfff
  · simp only [if_pos h, updateDispArea_x1, updateDispArea_x2, and_self]
  · simp only [if_neg h]
    constructor
    · by_contra hc; exact h (Or.inl hc)
    · by_contra hc; exact h (Or.inr hc)

theorem setVerticalRange_of_eq (command : Nat) (m : Machine)
    (h1 : m.display.y1 = command &&& 0x3ff) (h2 : m.display.y2 = (command >>> 10) &&& 0x3ff) :
    setVerticalRange command m = m := by
  unfold setVerticalRange
  simp [h1, h2]

theorem setVerticalRange_range (command : Nat) (m : Machine) :
    (setVerticalRange command m).display.y1 = command &&& 0x3ff ∧
    (setVerticalRange command m).display.y2 = (command >>> 10) &&& 0x3ff := by
  unfold setVerticalRange
  by_cases h : m.display.y1 ≠ command &&& 0x3ff ∨ m.display.y2 ≠ (command >>> 10) &&& 0x3ff
  · simp only [if_pos h, updateDispArea_y1, updateDispArea_y2, and_self]
  · simp only [if_neg h]
    constructor
    · by_contra hc; exact h (Or.inl hc)
    · by_contra hc; exact h (Or.inr hc)

theorem setMode_of_eq (command : Nat) (m : Machine)
    (h : m.display.m_drawMode = command &&& 0xff) : setMode command m = m := by
  unfold setMode
  simp [h]

theorem setMode_drawMode (command : Nat) (m : Machine) :
    (setMode command m).display.m_drawMode = command &&& 0xff := by
  unfold setMode
  by_cases h : m.display.m_drawMode ≠ command &&& 0xff
  · simp only [if_pos h, updateDispArea_drawMode]
  · simp only [if_neg h]
    by_contra hc; exact h hc

/-! ## Flags and settings -/

theorem flagsConsistent_updateDispArea (m : Machine) :
    FlagsConsistent (updateDispArea m).display ↔ FlagsConsistent m.display := Iff.rfl

theorem flagsConsistent_setLinearFiltering (m : Machine) :
    FlagsConsistent (setLinearFiltering m).display ↔ FlagsConsistent m.display := Iff.rfl

/-- Either `setDisplayStart` is skipped, or it rewrites `m_start` and
`m_startNormalized` and nothing else. -/
theorem setDisplayStart_cases (command : Nat) (m : Machine) :
    setDisplayStart command m = m ∨
    ∃ s n, setDisplayStart command m =
      { m with display := { m.display with m_start := s, m_startNormalized := n } } := by
  by_cases h : toI32 (command &&& 0x3fe) ≠ m.display.m_start.x ∨
      toI32 ((command >>> 10) &&& 0x1ff) ≠ m.display.m_start.y
  · right
    simp only [setDisplayStart, if_pos h]
    exact ⟨_, _, rfl⟩
  · left
    simp only [setDisplayStart, if_neg h]

/-- Either `setHorizontalRange` is skipped, or it stores the two fields and
runs `updateDispArea`. -/
theorem setHorizontalRange_cases (command : Nat) (m : Machine) :
    setHorizontalRange command m = m ∨
    setHorizontalRange command m = updateDispArea
      { m with display :=
          { m.display with x1 := command &&& 0xfff, x2 := (command >>> 12) &&& 0xfff } } := by
  by_cases h : m.display.x1 ≠ command &&& 0xfff ∨ m.display.x2 ≠ (command >>> 12) &&& 0xfff
  · right
    simp only [setHorizontalRange, if_pos h]
  · left
    simp only [setHorizontalRange, if_neg h]

/-- Either `setVerticalRange` is skipped, or it stores the two fields and runs
`updateDispArea`. -/
theorem setVerticalRange_cases (command : Nat) (m : Machine) :
    setVerticalRange command m = m ∨
    setVerticalRange command m = updateDispArea
      { m with display :=
          { m.display with y1 := command &&& 0x3ff, y2 := (command >>> 10) &&& 0x3ff } } := by
  by_cases h : m.display.y1 ≠ command &&& 0x3ff ∨ m.display.y2 ≠ (command >>> 10) &&& 0x3ff
  · right
    simp only [setVerticalRange, if_pos h]
  · left
    simp only [setVerticalRange, if_neg h]

theorem flagsConsistent_setDisplayStart (command : Nat) (m : Machine) :
    FlagsConsistent (setDisplayStart command m).display ↔ FlagsConsistent m.display := by
  rcases setDisplayStart_cases command m with h | ⟨s, n, h⟩ <;> rw [h]
  exact Iff.rfl

theorem flagsConsistent_setHorizontalRange (command : Nat) (m : Machine) :
    FlagsConsistent (setHorizontalRange command m).display ↔ FlagsConsistent m.display := by
  rcases setHorizontalRange_cases command m with h | h <;> rw [h]
  exact Iff.rfl

theorem flagsConsistent_setVerticalRange (command : Nat) (m : Machine) :
    FlagsConsistent (setVerticalRange command m).display ↔ FlagsConsistent m.display := by
  rcases setVerticalRange_cases command m with h | h <;> rw [h]
  exact Iff.rfl

/-- A mode write that is not skipped stores flags that agree with the new mode. -/
theorem setMode_flags_of_ne (command : Nat) (m : Machine)
    (h : m.display.m_drawMode ≠ command &&& 0xff) :
    (setMode command m).display.m_pal = (command &&& 0xff).testBit 3 ∧
    (setMode command m).display.m_rgb24 = (command &&& 0xff).testBit 4 ∧
    (setMode command m).display.m_interlace = (command &&& 0xff).testBit 5 := by
  unfold setMode
  simp only [if_pos h, updateDispArea_pal, updateDispArea_rgb24, updateDispArea_interlace]
  exact ⟨and_ne_zero_eq_testBit _ 3, and_ne_zero_eq_testBit _ 4, and_ne_zero_eq_testBit _ 5⟩

theorem flagsConsistent_setMode (command : Nat) (m : Machine)
    (h : FlagsConsistent m.display) : FlagsConsistent (setMode command m).display := by
  by_cases hc : m.display.m_drawMode = command &&& 0xff
  · rw [setMode_of_eq command m hc]
    exact h
  · unfold FlagsConsistent
    rw [setMode_drawMode]
    exact setMode_flags_of_ne command m hc

theorem flagsConsistent_reset (m : Machine)
    (h : FlagsConsistent m.display) : FlagsConsistent (reset m).display := by
  unfold reset
  rw [flagsConsistent_updateDispArea, flagsConsistent_setDisplayStart]
  exact flagsConsistent_setMode 0 _ h

theorem testBit_and_0xff_three (command : Nat) :
    (command &&& 0xff).testBit 3 = command.testBit 3 := by
  rw [Nat.testBit_and]
  have : Nat.testBit 0xff 3 = true := by decide
  rw [this, Bool.and_true]

/-- The video standard after a mode write that is not skipped. -/
theorem setMode_video_of_ne (command : Nat) (m : Machine)
    (h : m.display.m_drawMode ≠ command &&& 0xff) :
    (setMode command m).settings.SettingVideo =
      if m.settings.SettingAutoVideo then
        (if command.testBit 3 then VideoType.PSX_TYPE_PAL else VideoType.PSX_TYPE_NTSC)
      else m.settings.SettingVideo := by
  unfold setMode
  simp only [if_pos h, updateDispArea_settings]
  have hb : ((command &&& 0xff &&& 0x8) != 0) = command.testBit 3 := by
    rw [← testBit_and_0xff_three]
    exact and_ne_zero_eq_testBit _ 3
  rw [hb]
  cases m.settings.SettingAutoVideo <;> cases command.testBit 3 <;> rfl

theorem setDisplayStart_settings (command : Nat) (m : Machine) :
    (setDisplayStart command m).settings = m.settings := by
  rcases setDisplayStart_cases command m with h | ⟨s, n, h⟩ <;> rw [h]

theorem setHorizontalRange_settings (command : Nat) (m : Machine) :
    (setHorizontalRange command m).settings = m.settings := by
  rcases setHorizontalRange_cases command m with h | h <;> rw [h]
  rfl

theorem setVerticalRange_settings (command : Nat) (m : Machine) :
    (setVerticalRange command m).settings = m.settings := by
  rcases setVerticalRange_cases command m with h | h <;> rw [h]
  rfl

/-! ## The divider, the width and the height -/

theorem horizontalRes_lt (dm : Nat) : horizontalRes dm < 8 := by
  unfold horizontalRes
  apply Nat.or_lt_two_pow (n := 3)
  · exact lt_of_le_of_lt Nat.and_le_right (by norm_num)
  · rw [Nat.shiftLeft_eq]
    have : dm &&& 3 ≤ 3 := Nat.and_le_right
    omega

theorem divider_cases (dm : Nat) :
    divider dm = 10 ∨ divider dm = 7 ∨ divider dm = 8 ∨ divider dm = 5 ∨ divider dm = 4 := by
  have h := horizontalRes_lt dm
  unfold divider
  interval_cases horizontalRes dm <;> simp [dividers]

theorem divider_nonneg (dm : Nat) : 0 ≤ divider dm := by
  rcases divider_cases dm with h | h | h | h | h <;> rw [h] <;> norm_num

theorem cyclesPerScanline_nonneg (pal : Bool) : 0 ≤ cyclesPerScanline pal := by
  cases pal <;> simp [cyclesPerScanline]

theorem cyclesPerScanline_toNat_le (pal : Bool) : (cyclesPerScanline pal).toNat ≤ 3413 := by
  cases pal <;> simp [cyclesPerScanline]

/-- The clamped and rounded range bound of `updateDispArea`, as a natural
number. -/
theorem round_cast (x : Nat) (c d : Int) (hc : 0 ≤ c) (hd : 0 ≤ d) :
    Int.tdiv (min (x : Int) c) d * d = ((min x c.toNat / d.toNat * d.toNat : Nat) : Int) := by
  rw [Int.tdiv_eq_ediv (le_min (Int.ofNat_nonneg x) hc) hd]
  obtain ⟨cN, rfl⟩ := Int.eq_ofNat_of_zero_le hc
  obtain ⟨dN, rfl⟩ := Int.eq_ofNat_of_zero_le hd
  simp only [Int.toNat_ofNat]
  push_cast
  rfl

theorem toU32_sub_cast (a b : Nat) (h : b < a) (ha : a < 2 ^ 32) :
    toU32 ((a : Int) - (b : Int)) = a - b := by
  unfold toU32
  omega

theorem horizontalCycles_eq (dm : Nat) (pal : Bool) (x1 x2 : Nat) :
    horizontalCycles dm pal x1 x2 =
      min x2 (cyclesPerScanline pal).toNat / (divider dm).toNat * (divider dm).toNat -
      min x1 (cyclesPerScanline pal).toNat / (divider dm).toNat * (divider dm).toNat := by
  unfold horizontalCycles
  simp only [round_cast _ _ _ (cyclesPerScanline_nonneg pal) (divider_nonneg dm)]
  have hle : min x2 (cyclesPerScanline pal).toNat / (divider dm).toNat * (divider dm).toNat
      ≤ 3413 :=
    le_trans (Nat.div_mul_le_self _ _)
      (le_trans (min_le_right _ _) (cyclesPerScanline_toNat_le pal))
  split
  · next hgt =>
    rw [toU32_sub_cast _ _ (by exact_mod_cast hgt) (by omega)]
  · next hgt =>
    have : ¬ (min x1 (cyclesPerScanline pal).toNat / (divider dm).toNat * (divider dm).toNat
      < min x2 (cyclesPerScanline pal).toNat / (divider dm).toNat * (divider dm).toNat) := by
      intro hc
      exact hgt (by exact_mod_cast hc)
    omega

theorem horizontalCycles_le (dm : Nat) (pal : Bool) (x1 x2 : Nat) :
    horizontalCycles dm pal x1 x2 ≤ 3413 := by
  rw [horizontalCycles_eq]
  have hle : min x2 (cyclesPerScanline pal).toNat / (divider dm).toNat * (divider dm).toNat
      ≤ 3413 :=
    le_trans (Nat.div_mul_le_self _ _)
      (le_trans (min_le_right _ _) (cyclesPerScanline_toNat_le pal))
  omega

theorem toU32_neg_four : toU32 (-4) = 4294967292 := by decide

theorem and_mask_mod_four (X : Nat) : (X &&& 4294967292) % 4 = 0 := by
  have h := Nat.and_pow_two_sub_one_eq_mod (X &&& 4294967292) 2
  have h0 : (4294967292 &&& (2 ^ 2 - 1) : Nat) = 0 := by decide
  rw [Nat.and_assoc, h0, Nat.and_zero] at h
  exact h.symm

/-- The stored width is the natural number `((horizontalCycles / divider) + 2) & ~3`. -/
theorem width_eq_cast (dm : Nat) (pal : Bool) (x1 x2 : Nat) :
    width dm pal x1 x2 =
      (((horizontalCycles dm pal x1 x2 / (divider dm).toNat + 2) &&& 4294967292 : Nat) : Int) := by
  unfold width
  have hd : toU32 (divider dm) = (divider dm).toNat := by
    rcases divider_cases dm with h | h | h | h | h <;> rw [h] <;> decide
  have hle := horizontalCycles_le dm pal x1 x2
  have hdiv : horizontalCycles dm pal x1 x2 / (divider dm).toNat ≤ 3413 :=
    le_trans (Nat.div_le_self _ _) hle
  rw [hd, toU32_neg_four, Nat.mod_eq_of_lt (by omega)]
  apply toI32_of_lt
  exact lt_of_le_of_lt Nat.and_le_left (by omega)

theorem width_nonneg (dm : Nat) (pal : Bool) (x1 x2 : Nat) : 0 ≤ width dm pal x1 x2 := by
  rw [width_eq_cast]
  exact Int.ofNat_nonneg _

theorem width_mod_four (dm : Nat) (pal : Bool) (x1 x2 : Nat) : width dm pal x1 x2 % 4 = 0 := by
  rw [width_eq_cast]
  have h := and_mask_mod_four (horizontalCycles dm pal x1 x2 / (divider dm).toNat + 2)
  omega

theorem horizontalRes_eq (dm : Nat) :
    horizontalRes dm = ((dm / 64) &&& 1) ||| ((dm % 32 % 4) <<< 1) := by
  unfold horizontalRes
  have h1 : dm >>> 6 = dm / 64 := Nat.shiftRight_eq_div_pow dm 6
  have h2 : dm &&& 3 = dm % 4 := Nat.and_pow_two_sub_one_eq_mod dm 2
  have h3 : dm % 32 % 4 = dm % 4 := Nat.mod_mod_of_dvd dm (by norm_num)
  rw [h1, h2, h3]

/-- The divider depends on `m_drawMode` only through its bits other than bit 5. -/
theorem divider_congr (dm dm2 : Nat) (hlow : dm2 % 32 = dm % 32) (hhigh : dm2 / 64 = dm / 64) :
    divider dm2 = divider dm := by
  unfold divider
  rw [horizontalRes_eq dm2, horizontalRes_eq dm, hlow, hhigh]

theorem width_congr (dm dm2 : Nat) (pal : Bool) (x1 x2 : Nat)
    (hlow : dm2 % 32 = dm % 32) (hhigh : dm2 / 64 = dm / 64) :
    width dm2 pal x1 x2 = width dm pal x1 x2 := by
  unfold width horizontalCycles
  rw [divider_congr dm dm2 hlow hhigh]

theorem width_clamp (dm : Nat) (pal : Bool) (x1 x2 : Nat)
    (h : (cyclesPerScanline pal).toNat ≤ x2) :
    width dm pal x1 x2 = width dm pal x1 (cyclesPerScanline pal).toNat := by
  have hc := cyclesPerScanline_nonneg pal
  have h1 : min (x2 : Int) (cyclesPerScanline pal) = cyclesPerScanline pal := by
    apply min_eq_right
    omega
  have h2 : min (((cyclesPerScanline pal).toNat : Nat) : Int) (cyclesPerScanline pal)
      = cyclesPerScanline pal := by
    apply min_eq_right
    omega
  unfold width horizontalCycles
  simp only [h1, h2]

theorem height_interlace (pal : Bool) (y1 y2 : Nat) :
    height pal true y1 y2 = 2 * height pal false y1 y2 := by
  unfold height
  simp only [if_true, Bool.false_eq_true, if_false]
  ring

/-! ## What the setters leave alone -/

/-- The members of the `Display` object that `setMode` never writes. -/
theorem setMode_frame (command : Nat) (m : Machine) :
    (setMode command m).display.x1 = m.display.x1 ∧
    (setMode command m).display.x2 = m.display.x2 ∧
    (setMode command m).display.y1 = m.display.y1 ∧
    (setMode command m).display.y2 = m.display.y2 ∧
    (setMode command m).display.m_enabled = m.display.m_enabled ∧
    (setMode command m).display.m_start = m.display.m_start := by
  by_cases h : m.display.m_drawMode ≠ command &&& 0xff
  · simp only [setMode, if_pos h]
    exact ⟨rfl, rfl, rfl, rfl, rfl, rfl⟩
  · rw [setMode_of_eq command m (not_not.mp h)]
    exact ⟨rfl, rfl, rfl, rfl, rfl, rfl⟩

/-- The members of the `Display` object that `setDisplayStart` never writes. -/
theorem setDisplayStart_frame (command : Nat) (m : Machine) :
    (setDisplayStart command m).display.x1 = m.display.x1 ∧
    (setDisplayStart command m).display.x2 = m.display.x2 ∧
    (setDisplayStart command m).display.y1 = m.display.y1 ∧
    (setDisplayStart command m).display.y2 = m.display.y2 ∧
    (setDisplayStart command m).display.m_enabled = m.display.m_enabled ∧
    (setDisplayStart command m).display.m_drawMode = m.display.m_drawMode ∧
    (setDisplayStart command m).display.m_pal = m.display.m_pal ∧
    (setDisplayStart command m).display.m_rgb24 = m.display.m_rgb24 ∧
    (setDisplayStart command m).display.m_interlace = m.display.m_interlace ∧
    (setDisplayStart command m).display.m_size = m.display.m_size ∧
    (setDisplayStart command m).display.m_sizeNormalized = m.display.m_sizeNormalized := by
  rcases setDisplayStart_cases command m with h | ⟨s, n, h⟩ <;> rw [h] <;>
    exact ⟨rfl, rfl, rfl, rfl, rfl, rfl, rfl, rfl, rfl, rfl, rfl⟩

/-- The size `updateDispArea` stores for the cold-boot registers. -/
theorem coldBoot_size (dm : Nat) (hdiv : divider dm = 10) :
    width dm false 0x200 (0x200 + 2560) = 256 ∧ height false false 0x10 (0x10 + 0x240) = 247 := by
  constructor
  · unfold width horizontalCycles
    rw [hdiv]
    decide
  · decide

/-! ## Claims -/

/-- C1. After each setter the raw register it decodes equals the masked
bit-fields of the command, whether the write was performed or skipped:
`m_start = (command & 0x3FE, (command >> 10) & 0x1FF)` with an even `x`,
`x1 = command & 0xFFF`, `x2 = (command >> 12) & 0xFFF`, `y1 = command & 0x3FF`,
`y2 = (command >> 10) & 0x3FF`, `m_drawMode = command & 0xFF`. -/
theorem setters_store_masked_fields (m : Machine) (command : Nat) :
    (setDisplayStart command m).display.m_start =
        ⟨((command &&& 0x3FE : Nat) : Int), (((command >>> 10) &&& 0x1FF : Nat) : Int)⟩ ∧
    (setDisplayStart command m).display.m_start.x % 2 = 0 ∧
    (setHorizontalRange command m).display.x1 = command &&& 0xFFF ∧
    (setHorizontalRange command m).display.x2 = (command >>> 12) &&& 0xFFF ∧
    (setVerticalRange command m).display.y1 = command &&& 0x3FF ∧
    (setVerticalRange command m).display.y2 = (command >>> 10) &&& 0x3FF ∧
    (setMode command m).display.m_drawMode = command &&& 0xFF := by
  have hs := setDisplayStart_start command m
  rw [toI32_and_mask command 0x3fe (by norm_num),
    toI32_and_mask (command >>> 10) 0x1ff (by norm_num)] at hs
  refine ⟨hs, ?_, (setHorizontalRange_range command m).1, (setHorizontalRange_range command m).2,
    (setVerticalRange_range command m).1, (setVerticalRange_range command m).2,
    setMode_drawMode command m⟩
  rw [hs]
  have h2 := and_even_mask_mod_two command
  show ((command &&& 0x3FE : Nat) : Int) % 2 = 0
  omega

/-- C2. Idempotence: each of the four setters, called twice in a row with the
same command and the same configuration flags, leaves exactly the state (the
`Display` object and the settings) that one call leaves. -/
theorem setter_twice_eq_once (m : Machine) (command : Nat) :
    setDisplayStart command (setDisplayStart command m) = setDisplayStart command m ∧
    setHorizontalRange command (setHorizontalRange command m) = setHorizontalRange command m ∧
    setVerticalRange command (setVerticalRange command m) = setVerticalRange command m ∧
    setMode command (setMode command m) = setMode command m :=
  ⟨setDisplayStart_of_eq command _ (setDisplayStart_start command m),
   setHorizontalRange_of_eq command _ (setHorizontalRange_range command m).1
     (setHorizontalRange_range command m).2,
   setVerticalRange_of_eq command _ (setVerticalRange_range command m).1
     (setVerticalRange_range command m).2,
   setMode_of_eq command _ (setMode_drawMode command m)⟩

/-- C3. A write whose decoded bit-fields equal the stored raw values is a
complete no-op: the setter returns the machine state it was given, every field
of the `Display` object and every setting included, whatever the flags are. -/
theorem unchanged_write_is_noop (m : Machine) (command : Nat) :
    (m.display.m_start =
        ⟨((command &&& 0x3FE : Nat) : Int), (((command >>> 10) &&& 0x1FF : Nat) : Int)⟩ →
      setDisplayStart command m = m) ∧
    (m.display.x1 = command &&& 0xFFF ∧ m.display.x2 = (command >>> 12) &&& 0xFFF →
      setHorizontalRange command m = m) ∧
    (m.display.y1 = command &&& 0x3FF ∧ m.display.y2 = (command >>> 10) &&& 0x3FF →
      setVerticalRange command m = m) ∧
    (m.display.m_drawMode = command &&& 0xFF → setMode command m = m) := by
  refine ⟨fun h => ?_, fun h => setHorizontalRange_of_eq command m h.1 h.2,
    fun h => setVerticalRange_of_eq command m h.1 h.2, fun h => setMode_of_eq command m h⟩
  apply setDisplayStart_of_eq
  rw [toI32_and_mask command 0x3fe (by norm_num),
    toI32_and_mask (command >>> 10) 0x1ff (by norm_num)]
  exact h

/-- C3, instantiated: on `sampleMachine` the commands that repeat the stored
start `(2, 3)`, ranges `0x260 .. 0xc60` and `16 .. 256`, and mode `0x28` change
nothing. -/
theorem unchanged_write_is_noop_witness :
    setDisplayStart 0xC02 sampleMachine = sampleMachine ∧
    setHorizontalRange 0xC60260 sampleMachine = sampleMachine ∧
    setVerticalRange 0x40010 sampleMachine = sampleMachine ∧
    setMode 0x28 sampleMachine = sampleMachine :=
  ⟨(unchanged_write_is_noop sampleMachine 0xC02).1 (by decide),
   (unchanged_write_is_noop sampleMachine 0xC60260).2.1 (by decide),
   (unchanged_write_is_noop sampleMachine 0x40010).2.2.1 (by decide),
   (unchanged_write_is_noop sampleMachine 0x28).2.2.2 (by decide)⟩

/-- C4. Flag consistency (`m_pal`, `m_rgb24`, `m_interlace` equal to bits 3, 4
and 5 of `m_drawMode`) is preserved by every operation: the four setters,
`updateDispArea`, `setLinearFiltering` and `reset`, for every command and every
configuration. -/
theorem flags_consistency_invariant (m : Machine) (command : Nat)
    (h : FlagsConsistent m.display) :
    FlagsConsistent (setDisplayStart command m).display ∧
    FlagsConsistent (setHorizontalRange command m).display ∧
    FlagsConsistent (setVerticalRange command m).display ∧
    FlagsConsistent (setMode command m).display ∧
    FlagsConsistent (updateDispArea m).display ∧
    FlagsConsistent (setLinearFiltering m).display ∧
    FlagsConsistent (reset m).display :=
  ⟨(flagsConsistent_setDisplayStart command m).2 h,
   (flagsConsistent_setHorizontalRange command m).2 h,
   (flagsConsistent_setVerticalRange command m).2 h,
   flagsConsistent_setMode command m h,
   (flagsConsistent_updateDispArea m).2 h,
   (flagsConsistent_setLinearFiltering m).2 h,
   flagsConsistent_reset m h⟩

/-- C4, instantiated on `sampleMachine` (mode `0x28`: PAL and interlaced) with
the mode command `0x10`. -/
theorem flags_consistency_invariant_witness :
    FlagsConsistent sampleMachine.display ∧
    FlagsConsistent (setMode 0x10 sampleMachine).display ∧
    FlagsConsistent (reset sampleMachine).display :=
  ⟨by decide,
   (flags_consistency_invariant sampleMachine 0x10 (by decide)).2.2.2.1,
   (flags_consistency_invariant sampleMachine 0x10 (by decide)).2.2.2.2.2.2⟩

/-- C5, as stated, fails: on `palSelectedMachine` the automatic video standard
is enabled and the command `0` has bit 3 clear, yet after `setMode 0` the video
standard is still PAL, not NTSC, because the stored mode is already `0` and the
write is skipped. -/
theorem auto_video_not_written_when_mode_unchanged :
    palSelectedMachine.settings.SettingAutoVideo = true ∧
    Nat.testBit 0 3 = false ∧
    (setMode 0 palSelectedMachine).settings.SettingVideo = VideoType.PSX_TYPE_PAL ∧
    (setMode 0 palSelectedMachine).settings.SettingVideo ≠ VideoType.PSX_TYPE_NTSC := by
  decide

/-- C5, amended. With the automatic video standard enabled, a `setMode` whose
`command & 0xFF` differs from the stored `m_drawMode` leaves the video standard
PAL if bit 3 of the command is set and NTSC if it is clear; a `setMode` whose
`command & 0xFF` equals the stored `m_drawMode` leaves the video standard as it
was. -/
theorem auto_video_propagation (m : Machine) (command : Nat)
    (hauto : m.settings.SettingAutoVideo = true) :
    (m.display.m_drawMode ≠ command &&& 0xFF →
      (setMode command m).settings.SettingVideo =
        if command.testBit 3 then VideoType.PSX_TYPE_PAL else VideoType.PSX_TYPE_NTSC) ∧
    (m.display.m_drawMode = command &&& 0xFF →
      (setMode command m).settings.SettingVideo = m.settings.SettingVideo) := by
  constructor
  · intro h
    rw [setMode_video_of_ne command m h, if_pos hauto]
  · intro h
    rw [setMode_of_eq command m h]

/-- C5 amended, instantiated on `palSelectedMachine` (stored mode `0`, PAL
selected): the command `0x8` switches the mode and keeps PAL, the command
`0x1` switches the mode and writes NTSC, and the command `0` is skipped. -/
theorem auto_video_propagation_witness :
    palSelectedMachine.settings.SettingAutoVideo = true ∧
    (setMode 0x8 palSelectedMachine).settings.SettingVideo = VideoType.PSX_TYPE_PAL ∧
    (setMode 0x1 palSelectedMachine).settings.SettingVideo = VideoType.PSX_TYPE_NTSC ∧
    (setMode 0 palSelectedMachine).settings.SettingVideo =
      palSelectedMachine.settings.SettingVideo :=
  ⟨by decide,
   (auto_video_propagation palSelectedMachine 0x8 (by decide)).1 (by decide),
   (auto_video_propagation palSelectedMachine 0x1 (by decide)).1 (by decide),
   (auto_video_propagation palSelectedMachine 0 (by decide)).2 (by decide)⟩

/-- C6. With the automatic video standard disabled `setMode` leaves the video
standard as it was, and `setDisplayStart`, `setHorizontalRange`,
`setVerticalRange`, `updateDispArea` and `setLinearFiltering` never change it
(they leave all three settings as they were). -/
theorem video_standard_frame (m : Machine) (command : Nat) :
    (m.settings.SettingAutoVideo = false →
      (setMode command m).settings.SettingVideo = m.settings.SettingVideo) ∧
    (setDisplayStart command m).settings = m.settings ∧
    (setHorizontalRange command m).settings = m.settings ∧
    (setVerticalRange command m).settings = m.settings ∧
    (updateDispArea m).settings = m.settings ∧
    (setLinearFiltering m).settings = m.settings := by
  refine ⟨fun hauto => ?_, setDisplayStart_settings command m,
    setHorizontalRange_settings command m, setVerticalRange_settings command m, rfl, rfl⟩
  by_cases h : m.display.m_drawMode = command &&& 0xff
  · rw [setMode_of_eq command m h]
  · rw [setMode_video_of_ne command m h, hauto]
    rfl

/-- C6, instantiated on `sampleMachine` (automatic video standard disabled,
NTSC selected) with the mode command `0x8`, which selects a PAL mode. -/
theorem video_standard_frame_witness :
    sampleMachine.settings.SettingAutoVideo = false ∧
    (setMode 0x8 sampleMachine).settings.SettingVideo = sampleMachine.settings.SettingVideo :=
  ⟨by decide, (video_standard_frame sampleMachine 0x8).1 (by decide)⟩

/-- C7. From every prior state whose flags are consistent with its
`m_drawMode`, `reset` leaves `x1 = 0x200`, `x2 = 0x200 + 2560`, `y1 = 0x10`,
`y2 = 0x10 + 0x240`, `m_enabled = false`, `m_drawMode = 0`, all three flags
false, `m_start = (0, 0)` and `m_size = (256, 247)`; and `(256, 247)` is the size
`updateDispArea` stores in any state with `m_pal = false`,
`m_interlace = false`, divider 10 and those four range values. -/
theorem reset_cold_boot (m : Machine) (h : FlagsConsistent m.display) :
    (reset m).display.x1 = 0x200 ∧
    (reset m).display.x2 = 0x200 + 2560 ∧
    (reset m).display.y1 = 0x10 ∧
    (reset m).display.y2 = 0x10 + 0x240 ∧
    (reset m).display.m_enabled = false ∧
    (reset m).display.m_drawMode = 0 ∧
    (reset m).display.m_pal = false ∧
    (reset m).display.m_rgb24 = false ∧
    (reset m).display.m_interlace = false ∧
    (reset m).display.m_start = ⟨0, 0⟩ ∧
    (reset m).display.m_size = ⟨256, 247⟩ ∧
    (∀ k : Machine, k.display.m_pal = false → k.display.m_interlace = false →
      divider k.display.m_drawMode = 10 →
      k.display.x1 = 0x200 → k.display.x2 = 0x200 + 2560 →
      k.display.y1 = 0x10 → k.display.y2 = 0x10 + 0x240 →
      (updateDispArea k).display.m_size = ⟨256, 247⟩) := by
  have hgen : ∀ k : Machine, k.display.m_pal = false → k.display.m_interlace = false →
      divider k.display.m_drawMode = 10 →
      k.display.x1 = 0x200 → k.display.x2 = 0x200 + 2560 →
      k.display.y1 = 0x10 → k.display.y2 = 0x10 + 0x240 →
      (updateDispArea k).display.m_size = ⟨256, 247⟩ := by
    intro k hp hi hd h1 h2 h3 h4
    rw [updateDispArea_size, hp, hi, h1, h2, h3, h4, (coldBoot_size _ hd).1, (coldBoot_size _ hd).2]
  -- the state after the five stores and `setMode(0)`
  let m1 : Machine :=
    { m with display :=
        { m.display with
          x1 := 0x200, x2 := 0x200 + 256 * 10, y1 := 0x10, y2 := 0x10 + 0x240,
          m_enabled := false } }
  have hm1 : FlagsConsistent m1.display := h
  have hreset : reset m = updateDispArea (setDisplayStart 0 (setMode 0 m1)) := rfl
  have hmode : (setMode 0 m1).display.m_drawMode = 0 := setMode_drawMode 0 m1
  obtain ⟨hp, hr, hi⟩ := flagsConsistent_setMode 0 m1 hm1
  rw [hmode] at hp hr hi
  obtain ⟨f1, f2, f3, f4, f5, -⟩ := setMode_frame 0 m1
  obtain ⟨g1, g2, g3, g4, g5, g6, g7, g8, g9, -, -⟩ := setDisplayStart_frame 0 (setMode 0 m1)
  have hstart : (setDisplayStart 0 (setMode 0 m1)).display.m_start = ⟨0, 0⟩ :=
    setDisplayStart_start 0 (setMode 0 m1)
  rw [hreset]
  refine ⟨?_, ?_, ?_, ?_, ?_, ?_, ?_, ?_, ?_, ?_, ?_, hgen⟩
  · rw [updateDispArea_x1, g1, f1]
  · rw [updateDispArea_x2, g2, f2]
  · rw [updateDispArea_y1, g3, f3]
  · rw [updateDispArea_y2, g4, f4]
  · rw [updateDispArea_enabled, g5, f5]
  · rw [updateDispArea_drawMode, g6, hmode]
  · rw [updateDispArea_pal, g7, hp]; rfl
  · rw [updateDispArea_rgb24, g8, hr]; rfl
  · rw [updateDispArea_interlace, g9, hi]; rfl
  · rw [updateDispArea_start, hstart]
  · apply hgen
    · rw [g7, hp]; rfl
    · rw [g9, hi]; rfl
    · rw [g6, hmode]; decide
    · rw [g1, f1]
    · rw [g2, f2]
    · rw [g3, f3]
    · rw [g4, f4]

/-- C7, instantiated on `sampleMachine` (mode `0x28`, flags consistent) and,
for the last part, on `palSelectedMachine`. -/
theorem reset_cold_boot_witness :
    FlagsConsistent sampleMachine.display ∧
    (reset sampleMachine).display.m_drawMode = 0 ∧
    (reset sampleMachine).display.m_pal = false ∧
    (reset sampleMachine).display.m_start = ⟨0, 0⟩ ∧
    (reset sampleMachine).display.m_size = ⟨256, 247⟩ ∧
    (updateDispArea palSelectedMachine).display.m_size = ⟨256, 247⟩ :=
  ⟨by decide,
   (reset_cold_boot sampleMachine (by decide)).2.2.2.2.2.1,
   (reset_cold_boot sampleMachine (by decide)).2.2.2.2.2.2.1,
   (reset_cold_boot sampleMachine (by decide)).2.2.2.2.2.2.2.2.2.1,
   (reset_cold_boot sampleMachine (by decide)).2.2.2.2.2.2.2.2.2.2.1,
   (reset_cold_boot sampleMachine (by decide)).2.2.2.2.2.2.2.2.2.2.2 palSelectedMachine
     (by decide) (by decide) (by decide) (by decide) (by decide) (by decide) (by decide)⟩

/-- C8. Width alignment: in every state (any `m_drawMode`, any `m_pal`, any
`x1` and `x2`, in either order) the width `updateDispArea` stores in `m_size.x`
is non-negative and a multiple of 4. -/
theorem width_multiple_of_four (m : Machine) :
    0 ≤ (updateDispArea m).display.m_size.x ∧
    (updateDispArea m).display.m_size.x % 4 = 0 ∧
    ∃ k : Nat, (updateDispArea m).display.m_size.x = 4 * (k : Int) := by
  rw [updateDispArea_size]
  have h0 := width_nonneg m.display.m_drawMode m.display.m_pal m.display.x1 m.display.x2
  have h4 := width_mod_four m.display.m_drawMode m.display.m_pal m.display.x1 m.display.x2
  refine ⟨h0, h4, ⟨(width m.display.m_drawMode m.display.m_pal m.display.x1 m.display.x2 / 4).toNat,
    ?_⟩⟩
  show width m.display.m_drawMode m.display.m_pal m.display.x1 m.display.x2 = _
  omega

/-- C9. Horizontal clamping: with `x2` at or beyond `cyclesPerScanline` (3413
when `m_pal` is false, 3406 when it is true) `updateDispArea` stores the same
`m_size.x` as with `x2` exactly `cyclesPerScanline`, all other fields equal. -/
theorem width_clamped_beyond_scanline (m : Machine) (x2 : Nat)
    (h : (if m.display.m_pal then 3406 else 3413) ≤ x2) :
    (updateDispArea { m with display := { m.display with x2 := x2 } }).display.m_size.x =
    (updateDispArea { m with display :=
      { m.display with x2 := if m.display.m_pal then 3406 else 3413 } }).display.m_size.x := by
  simp only [updateDispArea_size]
  have hc : (cyclesPerScanline m.display.m_pal).toNat =
      if m.display.m_pal then 3406 else 3413 := by
    cases m.display.m_pal <;> rfl
  rw [← hc] at h ⊢
  exact width_clamp _ _ _ _ h

/-- C9, instantiated on `sampleMachine` (PAL, so the bound is 3406) with
`x2 = 0xfff`. -/
theorem width_clamped_beyond_scanline_witness :
    (if sampleMachine.display.m_pal then 3406 else 3413) ≤ 0xfff ∧
    (updateDispArea
      { sampleMachine with display := { sampleMachine.display with x2 := 0xfff } }).display.m_size.x =
    (updateDispArea { sampleMachine with display :=
      { sampleMachine.display with
        x2 := if sampleMachine.display.m_pal then 3406 else 3413 } }).display.m_size.x :=
  ⟨by decide, width_clamped_beyond_scanline sampleMachine 0xfff (by decide)⟩

/-- C10. Interlace doubling: let `s` be a state with `m_interlace = false` and
let `t` be `s` with `m_interlace = true` and an `m_drawMode` that agrees with
that of `s` on every bit other than bit 5.  Then the `m_size.y` that
`updateDispArea` stores in `t` is exactly twice the one it stores in `s`, and
`m_size.x` is the same in both. -/
theorem interlace_doubles_height (s : Machine) (drawMode : Nat)
    (hs : s.display.m_interlace = false)
    (hlow : drawMode % 32 = s.display.m_drawMode % 32)
    (hhigh : drawMode / 64 = s.display.m_drawMode / 64) :
    (updateDispArea { s with display :=
        { s.display with m_interlace := true, m_drawMode := drawMode } }).display.m_size.y =
      2 * (updateDispArea s).display.m_size.y ∧
    (updateDispArea { s with display :=
        { s.display with m_interlace := true, m_drawMode := drawMode } }).display.m_size.x =
      (updateDispArea s).display.m_size.x := by
  simp only [updateDispArea_size]
  rw [hs]
  exact ⟨height_interlace _ _ _, width_congr _ _ _ _ _ hlow hhigh⟩

/-- C10, instantiated on `palSelectedMachine` (mode `0`, not interlaced)
against the same state with `m_interlace = true` and mode `0x20`. -/
theorem interlace_doubles_height_witness :
    palSelectedMachine.display.m_interlace = false ∧
    (updateDispArea { palSelectedMachine with display :=
        { palSelectedMachine.display with
          m_interlace := true, m_drawMode := 0x20 } }).display.m_size.y =
      2 * (updateDispArea palSelectedMachine).display.m_size.y ∧
    (updateDispArea { palSelectedMachine with display :=
        { palSelectedMachine.display with
          m_interlace := true, m_drawMode := 0x20 } }).display.m_size.x =
      (updateDispArea palSelectedMachine).display.m_size.x :=
  ⟨by decide,
   interlace_doubles_height palSelectedMachine 0x20 (by decide) (by decide) (by decide)⟩

/-! ## Normalization -/

theorem toFloat_of_natAbs_lt {n : Int} (h : n.natAbs < 2 ^ 24) : toFloat n = (n : ℚ) := by
  unfold toFloat
  simp only [if_pos h]

/-- With linear filtering off `setLinearFiltering` writes the unadjusted
quotients. -/
theorem setLinearFiltering_off (m : Machine) (h : m.settings.SettingLinearFiltering = false) :
    (setLinearFiltering m).display =
      { m.display with
        m_sizeNormalized := ⟨toFloat m.display.m_size.x / 1024, toFloat m.display.m_size.y / 512⟩
        m_startNormalized :=
          ⟨toFloat m.display.m_start.x / 1024, toFloat m.display.m_start.y / 512⟩ } := by
  unfold setLinearFiltering
  simp only [h, Bool.false_eq_true, if_false, sub_zero, add_zero]

/-- The size pair `updateDispArea` writes, with the adjustment written as in
`setLinearFiltering`. -/
theorem updateDispArea_sizeNormalized (m : Machine) :
    (updateDispArea m).display.m_sizeNormalized =
      ⟨toFloat (width m.display.m_drawMode m.display.m_pal m.display.x1 m.display.x2 -
          (if m.settings.SettingLinearFiltering then 2 else 0)) / 1024,
       toFloat (height m.display.m_pal m.display.m_interlace m.display.y1 m.display.y2 -
          (if m.settings.SettingLinearFiltering then 2 else 0)) / 512⟩ := by
  unfold updateDispArea
  cases m.settings.SettingLinearFiltering <;> simp

/-- The start pair a `setDisplayStart` that is not skipped writes, with the
adjustment written as in `setLinearFiltering`. -/
theorem setDisplayStart_startNormalized_of_ne (command : Nat) (m : Machine)
    (h : m.display.m_start ≠ ⟨toI32 (command &&& 0x3fe), toI32 ((command >>> 10) &&& 0x1ff)⟩) :
    (setDisplayStart command m).display.m_startNormalized =
      ⟨toFloat (toI32 (command &&& 0x3fe) +
          (if m.settings.SettingLinearFiltering then 1 else 0)) / 1024,
       toFloat (toI32 ((command >>> 10) &&& 0x1ff) +
          (if m.settings.SettingLinearFiltering then 1 else 0)) / 512⟩ := by
  have hc : toI32 (command &&& 0x3fe) ≠ m.display.m_start.x ∨
      toI32 ((command >>> 10) &&& 0x1ff) ≠ m.display.m_start.y := by
    by_contra hn
    push_neg at hn
    apply h
    cases hm : m.display.m_start
    rw [hm] at hn
    simp only [IVec2.mk.injEq]
    exact ⟨hn.1.symm, hn.2.symm⟩
  unfold setDisplayStart
  simp only [if_pos hc]
  cases m.settings.SettingLinearFiltering <;> simp

/-- C11. Smoothing toggle is reversible: from a state whose normalized pairs
were computed from its stored `m_start` and `m_size` with smoothing off,
switching smoothing on (with `setLinearFiltering`) and then off again (with
`setLinearFiltering`) gives back the same `Display` object: `m_startNormalized`
and `m_sizeNormalized` have exactly their earlier values and `m_start`, `m_size`
and every raw register are unchanged. -/
theorem smoothing_toggle_reversible (m : Machine) (h : NormalizedUnsmoothed m.display) :
    (toggleSmoothing false (toggleSmoothing true m)).display = m.display ∧
    (toggleSmoothing true m).display.m_start = m.display.m_start ∧
    (toggleSmoothing true m).display.m_size = m.display.m_size := by
  refine ⟨?_, rfl, rfl⟩
  unfold toggleSmoothing
  rw [setLinearFiltering_off _ rfl]
  unfold withSmoothing
  obtain ⟨h1, h2⟩ := h
  cases hd : m.display
  rw [hd] at h1 h2
  simp only at h1 h2
  simp only [setLinearFiltering, Display.mk.injEq, true_and]
  exact ⟨h1.symm, h2.symm⟩

theorem sampleMachine_normalizedUnsmoothed : NormalizedUnsmoothed sampleMachine.display := by
  unfold NormalizedUnsmoothed sampleMachine
  simp only
  rw [toFloat_of_natAbs_lt (by decide), toFloat_of_natAbs_lt (by decide),
    toFloat_of_natAbs_lt (by decide), toFloat_of_natAbs_lt (by decide)]
  norm_num

/-- C11, instantiated on `sampleMachine`, whose normalized pairs are
`(2/1024, 3/512)` and `(256/1024, 480/512)` for start `(2, 3)` and size
`(256, 480)`. -/
theorem smoothing_toggle_reversible_witness :
    NormalizedUnsmoothed sampleMachine.display ∧
    (toggleSmoothing false (toggleSmoothing true sampleMachine)).display =
      sampleMachine.display :=
  ⟨sampleMachine_normalizedUnsmoothed,
   (smoothing_toggle_reversible sampleMachine sampleMachine_normalizedUnsmoothed).1⟩

/-- C12. `setLinearFiltering` agrees with the full derivation.  In a state whose
`m_size` is the one `updateDispArea` computes from the current registers, and
under either value `v` of the linear-filtering setting: the `m_sizeNormalized`
that `setLinearFiltering` writes is the one `updateDispArea` writes; the
`m_startNormalized` it writes is the one that `setDisplayStart` writes, under
the same setting, whenever it stores the same `m_start`; and
`setLinearFiltering` changes nothing but these two pairs. -/
theorem setLinearFiltering_agrees_with_derivation (m : Machine) (v : Bool)
    (h : SizeCurrent m) :
    (setLinearFiltering (withSmoothing v m)).display.m_sizeNormalized =
      (updateDispArea (withSmoothing v m)).display.m_sizeNormalized ∧
    (∀ (command : Nat) (k : Machine),
      k.settings.SettingLinearFiltering = v →
      k.display.m_start ≠ m.display.m_start →
      (setDisplayStart command k).display.m_start = m.display.m_start →
      (setDisplayStart command k).display.m_startNormalized =
        (setLinearFiltering (withSmoothing v m)).display.m_startNormalized) ∧
    (setLinearFiltering (withSmoothing v m)).settings = (withSmoothing v m).settings ∧
    (setLinearFiltering (withSmoothing v m)).display =
      { m.display with
        m_sizeNormalized := (setLinearFiltering (withSmoothing v m)).display.m_sizeNormalized
        m_startNormalized :=
          (setLinearFiltering (withSmoothing v m)).display.m_startNormalized } := by
  refine ⟨?_, ?_, rfl, rfl⟩
  · rw [updateDispArea_sizeNormalized]
    have hs : m.display.m_size =
        ⟨width m.display.m_drawMode m.display.m_pal m.display.x1 m.display.x2,
         height m.display.m_pal m.display.m_interlace m.display.y1 m.display.y2⟩ := h
    show (⟨toFloat (m.display.m_size.x - (if v then 2 else 0)) / 1024,
        toFloat (m.display.m_size.y - (if v then 2 else 0)) / 512⟩ : Vec2) = _
    rw [hs]
    rfl
  · intro command k hv hne hst
    have hdec := setDisplayStart_start command k
    rw [hst] at hdec
    rw [setDisplayStart_startNormalized_of_ne command k (by rw [← hdec]; exact hne), hv]
    show _ = (⟨toFloat (m.display.m_start.x + (if v then 1 else 0)) / 1024,
        toFloat (m.display.m_start.y + (if v then 1 else 0)) / 512⟩ : Vec2)
    rw [hdec]

/-- C12, instantiated on `sampleMachine` with linear filtering switched on. -/
theorem setLinearFiltering_agrees_with_derivation_witness :
    SizeCurrent sampleMachine ∧
    (setLinearFiltering (withSmoothing true sampleMachine)).display.m_sizeNormalized =
      (updateDispArea (withSmoothing true sampleMachine)).display.m_sizeNormalized ∧
    (setDisplayStart 0xC02 (withSmoothing true palSelectedMachine)).display.m_startNormalized =
      (setLinearFiltering (withSmoothing true sampleMachine)).display.m_startNormalized :=
  ⟨by decide,
   (setLinearFiltering_agrees_with_derivation sampleMachine true (by decide)).1,
   (setLinearFiltering_agrees_with_derivation sampleMachine true (by decide)).2.1 0xC02
     (withSmoothing true palSelectedMachine) rfl (by decide) (by decide)⟩

/-- C13 fails on the code: after `reset`, the vertical-range command `0xC864`
(`y1 = 100`, `y2 = 50`, an inverted range) makes `updateDispArea` store the
height `-50`.  The horizontal path clamps the same situation: the
horizontal-range command `0x200300` (`x1 = 0x300`, `x2 = 0x200`) stores the
width `0`. -/
theorem inverted_vertical_range_negative_height :
    (setVerticalRange 0xC864 (reset sampleMachine)).display.y1 = 100 ∧
    (setVerticalRange 0xC864 (reset sampleMachine)).display.y2 = 50 ∧
    (setVerticalRange 0xC864 (reset sampleMachine)).display.m_size = ⟨256, -50⟩ ∧
    (setVerticalRange 0xC864 (reset sampleMachine)).display.m_size.y < 0 ∧
    (setHorizontalRange 0x200300 (reset sampleMachine)).display.x1 = 0x300 ∧
    (setHorizontalRange 0x200300 (reset sampleMachine)).display.x2 = 0x200 ∧
    (setHorizontalRange 0x200300 (reset sampleMachine)).display.m_size.x = 0 := by
  decide

/-! ## Bounds on the stored size -/

theorem four_le_divider_toNat (dm : Nat) : 4 ≤ (divider dm).toNat := by
  rcases divider_cases dm with h | h | h | h | h <;> rw [h] <;> decide

theorem width_le (dm : Nat) (pal : Bool) (x1 x2 : Nat) : width dm pal x1 x2 ≤ 852 := by
  rw [width_eq_cast]
  have hle := horizontalCycles_le dm pal x1 x2
  have hdiv : horizontalCycles dm pal x1 x2 / (divider dm).toNat ≤
      horizontalCycles dm pal x1 x2 / 4 :=
    Nat.div_le_div_left (four_le_divider_toNat dm) (by norm_num)
  have hand : (horizontalCycles dm pal x1 x2 / (divider dm).toNat + 2) &&& 4294967292 ≤
      horizontalCycles dm pal x1 x2 / (divider dm).toNat + 2 := Nat.and_le_left
  have hmod := and_mask_mod_four (horizontalCycles dm pal x1 x2 / (divider dm).toNat + 2)
  omega

theorem height_le (pal il : Bool) (y1 y2 : Nat) : height pal il y1 y2 ≤ 628 := by
  unfold height totalScanlines
  cases pal <;> cases il <;> simp only [Bool.false_eq_true, if_true, if_false] <;> omega

theorem height_le_of_not_interlace (pal : Bool) (y1 y2 : Nat) :
    height pal false y1 y2 ≤ 314 := by
  unfold height totalScanlines
  cases pal <;> simp only [Bool.false_eq_true, if_true, if_false] <;> omega

theorem height_nonneg_of_le (pal il : Bool) (y1 y2 : Nat) (h : y1 ≤ y2) :
    0 ≤ height pal il y1 y2 := by
  unfold height totalScanlines
  cases pal <;> cases il <;> simp only [Bool.false_eq_true, if_true, if_false] <;> omega

/-! ## The stored size and its normalization follow the registers -/

/-- Either `setMode` is skipped, or it ends with `updateDispArea`. -/
theorem setMode_cases (command : Nat) (m : Machine) :
    setMode command m = m ∨ ∃ k, setMode command m = updateDispArea k := by
  by_cases h : m.display.m_drawMode ≠ command &&& 0xff
  · right
    simp only [setMode, if_pos h]
    exact ⟨_, rfl⟩
  · left
    simp only [setMode, if_neg h]

theorem sizeCurrent_updateDispArea (k : Machine) : SizeCurrent (updateDispArea k) := rfl

theorem sizeCurrent_setDisplayStart (command : Nat) (m : Machine) (h : SizeCurrent m) :
    SizeCurrent (setDisplayStart command m) := by
  rcases setDisplayStart_cases command m with e | ⟨s, n, e⟩ <;> rw [e]
  · exact h
  · exact h

theorem sizeCurrent_setHorizontalRange (command : Nat) (m : Machine) (h : SizeCurrent m) :
    SizeCurrent (setHorizontalRange command m) := by
  rcases setHorizontalRange_cases command m with e | e <;> rw [e]
  · exact h
  · exact sizeCurrent_updateDispArea _

theorem sizeCurrent_setVerticalRange (command : Nat) (m : Machine) (h : SizeCurrent m) :
    SizeCurrent (setVerticalRange command m) := by
  rcases setVerticalRange_cases command m with e | e <;> rw [e]
  · exact h
  · exact sizeCurrent_updateDispArea _

theorem sizeCurrent_setMode (command : Nat) (m : Machine) (h : SizeCurrent m) :
    SizeCurrent (setMode command m) := by
  rcases setMode_cases command m with e | ⟨k, e⟩ <;> rw [e]
  · exact h
  · exact sizeCurrent_updateDispArea _

theorem sizeCurrent_setLinearFiltering (m : Machine) (h : SizeCurrent m) :
    SizeCurrent (setLinearFiltering m) := h

theorem sizeCurrent_reset (m : Machine) : SizeCurrent (reset m) :=
  sizeCurrent_updateDispArea _

theorem sizeNormalizedCurrent_updateDispArea (k : Machine) :
    SizeNormalizedCurrent (updateDispArea k) :=
  updateDispArea_sizeNormalized k

/-- In every reachable state the stored size is the one derived from the
registers and the stored normalized size is the one derived from the stored
size under the current setting. -/
theorem reachable_size (m : Machine) (h : Reachable m) :
    SizeCurrent m ∧ SizeNormalizedCurrent m := by
  induction h with
  | boot m => exact ⟨sizeCurrent_reset m, sizeNormalizedCurrent_updateDispArea _⟩
  | displayStart command _ ih =>
    refine ⟨sizeCurrent_setDisplayStart command _ ih.1, ?_⟩
    rcases setDisplayStart_cases command _ with e | ⟨s, n, e⟩ <;> rw [e]
    · exact ih.2
    · exact ih.2
  | horizontalRange command _ ih =>
    refine ⟨sizeCurrent_setHorizontalRange command _ ih.1, ?_⟩
    rcases setHorizontalRange_cases command _ with e | e <;> rw [e]
    · exact ih.2
    · exact sizeNormalizedCurrent_updateDispArea _
  | verticalRange command _ ih =>
    refine ⟨sizeCurrent_setVerticalRange command _ ih.1, ?_⟩
    rcases setVerticalRange_cases command _ with e | e <;> rw [e]
    · exact ih.2
    · exact sizeNormalizedCurrent_updateDispArea _
  | mode command _ ih =>
    refine ⟨sizeCurrent_setMode command _ ih.1, ?_⟩
    rcases setMode_cases command _ with e | ⟨k, e⟩ <;> rw [e]
    · exact ih.2
    · exact sizeNormalizedCurrent_updateDispArea _
  | smoothing v _ ih => exact ⟨ih.1, rfl⟩

theorem neg_height_le (pal il : Bool) (y1 y2 : Nat) : -628 ≤ height pal il y1 y2 := by
  unfold height totalScanlines
  cases pal <;> cases il <;> simp only [Bool.false_eq_true, if_true, if_false] <;> omega

/-- In a reachable state the normalized size is the exact quotient of the
adjusted stored size, and the stored size is bounded. -/
theorem reachable_sizeNormalized (m : Machine) (h : Reachable m) :
    m.display.m_sizeNormalized =
      ⟨((m.display.m_size.x - (if m.settings.SettingLinearFiltering then 2 else 0) : Int) : ℚ)
          / 1024,
       ((m.display.m_size.y - (if m.settings.SettingLinearFiltering then 2 else 0) : Int) : ℚ)
          / 512⟩ ∧
    0 ≤ m.display.m_size.x ∧ m.display.m_size.x ≤ 852 ∧
    -628 ≤ m.display.m_size.y ∧ m.display.m_size.y ≤ 628 ∧
    (m.display.m_interlace = false → m.display.m_size.y ≤ 314) ∧
    (m.display.y1 ≤ m.display.y2 → 0 ≤ m.display.m_size.y) := by
  obtain ⟨hs, hn⟩ := reachable_size m h
  have hx : m.display.m_size.x =
      width m.display.m_drawMode m.display.m_pal m.display.x1 m.display.x2 :=
    congrArg IVec2.x hs
  have hy : m.display.m_size.y =
      height m.display.m_pal m.display.m_interlace m.display.y1 m.display.y2 :=
    congrArg IVec2.y hs
  have b1 : 0 ≤ m.display.m_size.x := hx ▸ width_nonneg _ _ _ _
  have b2 : m.display.m_size.x ≤ 852 := hx ▸ width_le _ _ _ _
  have b3 : -628 ≤ m.display.m_size.y := hy ▸ neg_height_le _ _ _ _
  have b4 : m.display.m_size.y ≤ 628 := hy ▸ height_le _ _ _ _
  refine ⟨?_, b1, b2, b3, b4, ?_, ?_⟩
  · have hn2 : m.display.m_sizeNormalized =
        ⟨toFloat (m.display.m_size.x - (if m.settings.SettingLinearFiltering then 2 else 0))
            / 1024,
         toFloat (m.display.m_size.y - (if m.settings.SettingLinearFiltering then 2 else 0))
            / 512⟩ := hn
    rw [hn2, toFloat_of_natAbs_lt, toFloat_of_natAbs_lt]
    · cases m.settings.SettingLinearFiltering <;>
        simp only [Bool.false_eq_true, if_true, if_false] <;> omega
    · cases m.settings.SettingLinearFiltering <;>
        simp only [Bool.false_eq_true, if_true, if_false] <;> omega
  · intro hi
    rw [hy, hi]
    exact height_le_of_not_interlace _ _ _
  · intro hle
    rw [hy]
    exact height_nonneg_of_le _ _ _ _ hle

/-- C14, as stated, fails in both directions at reachable states.  After
`reset`, the mode command `0x28` (PAL, interlaced) and the vertical-range
command `0xFFC00` (`y1 = 0`, `y2 = 0x3ff`) the stored size is `(256, 628)` and
`m_sizeNormalized.y = 628/512 > 1`.  After `reset`, the horizontal-range
command `0` (`x1 = x2 = 0`) and switching smoothing on, the stored width is `0`
and `m_sizeNormalized.x = -2/1024 < 0`. -/
theorem sizeNormalized_leaves_unit_range :
    Reachable (setVerticalRange 0xFFC00 (setMode 0x28 (reset sampleMachine))) ∧
    (setVerticalRange 0xFFC00 (setMode 0x28 (reset sampleMachine))).display.m_size
      = ⟨256, 628⟩ ∧
    1 < (setVerticalRange 0xFFC00 (setMode 0x28 (reset sampleMachine))).display.m_sizeNormalized.y ∧
    Reachable (toggleSmoothing true (setHorizontalRange 0 (reset sampleMachine))) ∧
    (toggleSmoothing true (setHorizontalRange 0 (reset sampleMachine))).display.m_size.x = 0 ∧
    (toggleSmoothing true (setHorizontalRange 0 (reset sampleMachine))).display.m_sizeNormalized.x
      < 0 := by
  have r1 : Reachable (setVerticalRange 0xFFC00 (setMode 0x28 (reset sampleMachine))) :=
    Reachable.verticalRange _ (Reachable.mode _ (Reachable.boot _))
  have r2 : Reachable (toggleSmoothing true (setHorizontalRange 0 (reset sampleMachine))) :=
    Reachable.smoothing _ (Reachable.horizontalRange _ (Reachable.boot _))
  have s1 : (setVerticalRange 0xFFC00 (setMode 0x28 (reset sampleMachine))).display.m_size
      = ⟨256, 628⟩ := by decide
  have s2 : (toggleSmoothing true
      (setHorizontalRange 0 (reset sampleMachine))).display.m_size.x = 0 := by decide
  have f1 : (setVerticalRange 0xFFC00
      (setMode 0x28 (reset sampleMachine))).settings.SettingLinearFiltering = false := by decide
  have f2 : (toggleSmoothing true
      (setHorizontalRange 0 (reset sampleMachine))).settings.SettingLinearFiltering = true := by
    decide
  refine ⟨r1, s1, ?_, r2, s2, ?_⟩
  · rw [(reachable_sizeNormalized _ r1).1, s1, f1]
    norm_num
  · rw [(reachable_sizeNormalized _ r2).1, s2, f2]
    norm_num

/-- C14, amended.  In every state reachable from `reset` by the four setters and
smoothing toggles, `m_sizeNormalized = (w / 1024, h / 512)` exactly, where
`(w, h)` is `m_size` with smoothing off and `(m_size.x - 2, m_size.y - 2)` with
smoothing on; `w <= 1024` always, `0 <= w` with smoothing off and `-2 <= w` with
smoothing on; `h <= 628` always and `h <= 512` when `m_interlace` is false; and
when `y1 <= y2`, `0 <= h` with smoothing off and `-2 <= h` with smoothing on.
So `m_sizeNormalized.x <= 1` always, `m_sizeNormalized.y <= 1` when not
interlaced, and both components are non-negative with smoothing off and
`y1 <= y2`. -/
theorem sizeNormalized_range (m : Machine) (h : Reachable m) :
    ∃ w t : Int,
      w = m.display.m_size.x - (if m.settings.SettingLinearFiltering then 2 else 0) ∧
      t = m.display.m_size.y - (if m.settings.SettingLinearFiltering then 2 else 0) ∧
      m.display.m_sizeNormalized = ⟨(w : ℚ) / 1024, (t : ℚ) / 512⟩ ∧
      w ≤ 1024 ∧ -2 ≤ w ∧ (m.settings.SettingLinearFiltering = false → 0 ≤ w) ∧
      t ≤ 628 ∧ (m.display.m_interlace = false → t ≤ 512) ∧
      (m.display.y1 ≤ m.display.y2 →
        -2 ≤ t ∧ (m.settings.SettingLinearFiltering = false → 0 ≤ t)) ∧
      m.display.m_sizeNormalized.x ≤ 1 ∧
      (m.settings.SettingLinearFiltering = false → 0 ≤ m.display.m_sizeNormalized.x) ∧
      (m.display.m_interlace = false → m.display.m_sizeNormalized.y ≤ 1) ∧
      (m.settings.SettingLinearFiltering = false → m.display.y1 ≤ m.display.y2 →
        0 ≤ m.display.m_sizeNormalized.y) := by
  obtain ⟨hn, b1, b2, b3, b4, b5, b6⟩ := reachable_sizeNormalized m h
  have hadj : (if m.settings.SettingLinearFiltering then (2 : Int) else 0) = 0 ∨
      (if m.settings.SettingLinearFiltering then (2 : Int) else 0) = 2 := by
    cases m.settings.SettingLinearFiltering <;> simp
  have hoff : m.settings.SettingLinearFiltering = false →
      (if m.settings.SettingLinearFiltering then (2 : Int) else 0) = 0 := by
    intro hf; rw [hf]; rfl
  refine ⟨_, _, rfl, rfl, hn, by omega, by omega, fun hf => by have := hoff hf; omega,
    by omega, fun hi => by have := b5 hi; omega,
    fun hle => ⟨by have := b6 hle; omega, fun hf => by have := b6 hle; have := hoff hf; omega⟩,
    ?_, ?_, ?_, ?_⟩
  · rw [hn]
    show ((m.display.m_size.x - (if m.settings.SettingLinearFiltering then 2 else 0) : Int) : ℚ)
      / 1024 ≤ 1
    rw [div_le_one (by norm_num)]
    have : m.display.m_size.x - (if m.settings.SettingLinearFiltering then 2 else 0)
        ≤ (1024 : Int) := by omega
    exact_mod_cast this
  · intro hf
    rw [hn]
    apply div_nonneg _ (by norm_num)
    have : (0 : Int) ≤
        m.display.m_size.x - (if m.settings.SettingLinearFiltering then 2 else 0) := by
      have := hoff hf; omega
    exact_mod_cast this
  · intro hi
    rw [hn]
    show ((m.display.m_size.y - (if m.settings.SettingLinearFiltering then 2 else 0) : Int) : ℚ)
      / 512 ≤ 1
    rw [div_le_one (by norm_num)]
    have : m.display.m_size.y - (if m.settings.SettingLinearFiltering then 2 else 0)
        ≤ (512 : Int) := by have := b5 hi; omega
    exact_mod_cast this
  · intro hf hle
    rw [hn]
    apply div_nonneg _ (by norm_num)
    have : (0 : Int) ≤
        m.display.m_size.y - (if m.settings.SettingLinearFiltering then 2 else 0) := by
      have := hoff hf; have := b6 hle; omega
    exact_mod_cast this

/-- C14 amended, instantiated on the state `reset` leaves from `sampleMachine`. -/
theorem sizeNormalized_range_witness :
    Reachable (reset sampleMachine) ∧
    (reset sampleMachine).display.m_sizeNormalized.x ≤ 1 ∧
    (reset sampleMachine).display.m_sizeNormalized.y ≤ 1 :=
  ⟨Reachable.boot sampleMachine,
   (sizeNormalized_range (reset sampleMachine) (Reachable.boot sampleMachine)).elim
     fun _ hw => hw.elim fun _ hp => hp.2.2.2.2.2.2.2.2.2.1,
   (sizeNormalized_range (reset sampleMachine) (Reachable.boot sampleMachine)).elim
     fun _ hw => hw.elim fun _ hp => hp.2.2.2.2.2.2.2.2.2.2.2.1 (by decide)⟩

/-! ## The normalized start -/

/-- A small non-negative numerator `n <= d` normalizes into the unit range. -/
theorem toFloat_div_unit (n : Int) (d : Int) (hd : 0 < d) (h0 : 0 ≤ n) (h1 : n ≤ d)
    (hd2 : d ≤ 1024) :
    toFloat n / (d : ℚ) = (n : ℚ) / (d : ℚ) ∧ 0 ≤ toFloat n / (d : ℚ) ∧ toFloat n / (d : ℚ) ≤ 1 := by
  have hsmall : n.natAbs < 2 ^ 24 := by omega
  have hdq : (0 : ℚ) < (d : ℚ) := by exact_mod_cast hd
  rw [toFloat_of_natAbs_lt hsmall]
  refine ⟨rfl, div_nonneg (by exact_mod_cast h0) (le_of_lt hdq), ?_⟩
  rw [div_le_one hdq]
  exact_mod_cast h1

/-- The start pair `setLinearFiltering` writes. -/
theorem setLinearFiltering_startNormalized (m : Machine) :
    (setLinearFiltering m).display.m_startNormalized =
      ⟨toFloat (m.display.m_start.x + (if m.settings.SettingLinearFiltering then 1 else 0)) / 1024,
       toFloat (m.display.m_start.y + (if m.settings.SettingLinearFiltering then 1 else 0)) / 512⟩ :=
  rfl

/-- C15. For every command and either value of the smoothing flag, the
`m_startNormalized` that `setDisplayStart` writes (when the write is not
skipped) is `(x / 1024, y / 512)` with numerators `0 <= x <= 1024` and
`0 <= y <= 512`, so both components lie in `[0, 1]`; and so is the
`m_startNormalized` that `setLinearFiltering` writes, under either flag `v`,
from the `m_start` left by `setDisplayStart`. -/
theorem startNormalized_unit_range (m : Machine) (command : Nat) (v : Bool) :
    (m.display.m_start ≠
        ⟨((command &&& 0x3FE : Nat) : Int), (((command >>> 10) &&& 0x1FF : Nat) : Int)⟩ →
      ∃ x y : Int,
        (setDisplayStart command m).display.m_startNormalized = ⟨(x : ℚ) / 1024, (y : ℚ) / 512⟩ ∧
        0 ≤ x ∧ x ≤ 1024 ∧ 0 ≤ y ∧ y ≤ 512 ∧
        0 ≤ (setDisplayStart command m).display.m_startNormalized.x ∧
        (setDisplayStart command m).display.m_startNormalized.x ≤ 1 ∧
        0 ≤ (setDisplayStart command m).display.m_startNormalized.y ∧
        (setDisplayStart command m).display.m_startNormalized.y ≤ 1) ∧
    (∃ x y : Int,
      (toggleSmoothing v (setDisplayStart command m)).display.m_startNormalized =
        ⟨(x : ℚ) / 1024, (y : ℚ) / 512⟩ ∧
      0 ≤ x ∧ x ≤ 1024 ∧ 0 ≤ y ∧ y ≤ 512 ∧
      0 ≤ (toggleSmoothing v (setDisplayStart command m)).display.m_startNormalized.x ∧
      (toggleSmoothing v (setDisplayStart command m)).display.m_startNormalized.x ≤ 1 ∧
      0 ≤ (toggleSmoothing v (setDisplayStart command m)).display.m_startNormalized.y ∧
      (toggleSmoothing v (setDisplayStart command m)).display.m_startNormalized.y ≤ 1) := by
  have hx : command &&& 0x3fe ≤ 0x3fe := Nat.and_le_right
  have hy : (command >>> 10) &&& 0x1ff ≤ 0x1ff := Nat.and_le_right
  have ex : toI32 (command &&& 0x3fe) = ((command &&& 0x3fe : Nat) : Int) :=
    toI32_and_mask command 0x3fe (by norm_num)
  have ey : toI32 ((command >>> 10) &&& 0x1ff) = (((command >>> 10) &&& 0x1ff : Nat) : Int) :=
    toI32_and_mask (command >>> 10) 0x1ff (by norm_num)
  -- the bounds for a numerator pair adjusted by the flag `b`
  have key : ∀ b : Bool,
      let x : Int := ((command &&& 0x3fe : Nat) : Int) + (if b then 1 else 0)
      let y : Int := (((command >>> 10) &&& 0x1ff : Nat) : Int) + (if b then 1 else 0)
      0 ≤ x ∧ x ≤ 1024 ∧ 0 ≤ y ∧ y ≤ 512 := by
    intro b
    cases b <;> simp only [Bool.false_eq_true, if_true, if_false] <;> omega
  constructor
  · intro hne
    obtain ⟨k1, k2, k3, k4⟩ := key m.settings.SettingLinearFiltering
    have hw := setDisplayStart_startNormalized_of_ne command m (by rw [ex, ey]; exact hne)
    rw [ex, ey] at hw
    obtain ⟨qx, qx0, qx1⟩ := toFloat_div_unit _ 1024 (by norm_num) k1 k2 (by norm_num)
    obtain ⟨qy, qy0, qy1⟩ := toFloat_div_unit _ 512 (by norm_num) k3 k4 (by norm_num)
    refine ⟨_, _, ?_, k1, k2, k3, k4, ?_, ?_, ?_, ?_⟩
    · rw [hw]
      exact congrArg₂ Vec2.mk qx qy
    · rw [hw]; exact qx0
    · rw [hw]; exact qx1
    · rw [hw]; exact qy0
    · rw [hw]; exact qy1
  · obtain ⟨k1, k2, k3, k4⟩ := key v
    have hst := setDisplayStart_start command m
    rw [ex, ey] at hst
    have hw : (toggleSmoothing v (setDisplayStart command m)).display.m_startNormalized =
        ⟨toFloat (((command &&& 0x3fe : Nat) : Int) + (if v then 1 else 0)) / 1024,
         toFloat ((((command >>> 10) &&& 0x1ff : Nat) : Int) + (if v then 1 else 0)) / 512⟩ := by
      unfold toggleSmoothing
      rw [setLinearFiltering_startNormalized]
      show (⟨toFloat ((setDisplayStart command m).display.m_start.x + (if v then 1 else 0)) / 1024,
        toFloat ((setDisplayStart command m).display.m_start.y + (if v then 1 else 0)) / 512⟩
          : Vec2) = _
      rw [hst]
    obtain ⟨qx, qx0, qx1⟩ := toFloat_div_unit _ 1024 (by norm_num) k1 k2 (by norm_num)
    obtain ⟨qy, qy0, qy1⟩ := toFloat_div_unit _ 512 (by norm_num) k3 k4 (by norm_num)
    refine ⟨_, _, ?_, k1, k2, k3, k4, ?_, ?_, ?_, ?_⟩
    · rw [hw]
      exact congrArg₂ Vec2.mk qx qy
    · rw [hw]; exact qx0
    · rw [hw]; exact qx1
    · rw [hw]; exact qy0
    · rw [hw]; exact qy1

/-- C15, instantiated on `sampleMachine` (start `(2, 3)`) with the command
`0x7FFFE` (`x = 0x3FE`, `y = 0x1FF`, the largest start) and smoothing on. -/
theorem startNormalized_unit_range_witness :
    sampleMachine.display.m_start ≠
      ⟨((0x7FFFE &&& 0x3FE : Nat) : Int), (((0x7FFFE >>> 10) &&& 0x1FF : Nat) : Int)⟩ ∧
    ∃ x y : Int,
      (setDisplayStart 0x7FFFE (withSmoothing true sampleMachine)).display.m_startNormalized =
        ⟨(x : ℚ) / 1024, (y : ℚ) / 512⟩ ∧
      0 ≤ x ∧ x ≤ 1024 ∧ 0 ≤ y ∧ y ≤ 512 ∧
      0 ≤ (setDisplayStart 0x7FFFE (withSmoothing true sampleMachine)).display.m_startNormalized.x ∧
      (setDisplayStart 0x7FFFE (withSmoothing true sampleMachine)).display.m_startNormalized.x ≤ 1 ∧
      0 ≤ (setDisplayStart 0x7FFFE (withSmoothing true sampleMachine)).display.m_startNormalized.y ∧
      (setDisplayStart 0x7FFFE (withSmoothing true sampleMachine)).display.m_startNormalized.y ≤ 1 :=
  ⟨by decide,
   (startNormalized_unit_range (withSmoothing true sampleMachine) 0x7FFFE true).1 (by decide)⟩

/-! ## Which mode bits select the divider -/

theorem shiftRight_six_and_one (dm : Nat) :
    (dm >>> 6) &&& 1 = if dm.testBit 6 then 1 else 0 := by
  have h1 : (dm >>> 6) &&& 1 = dm >>> 6 % 2 := Nat.and_pow_two_sub_one_eq_mod (dm >>> 6) 1
  have h2 : dm.testBit 6 = decide (dm / 2 ^ 6 % 2 = 1) := Nat.testBit_to_div_mod
  rw [h1, h2, Nat.shiftRight_eq_div_pow]
  simp only [decide_eq_true_eq]
  split <;> omega

/-- The selector is built from bit 6 and bits 0-1 of the mode. -/
theorem horizontalRes_eq_ite (dm : Nat) :
    horizontalRes dm = (if dm.testBit 6 then 1 else 0) ||| ((dm &&& 3) <<< 1) := by
  unfold horizontalRes
  rw [shiftRight_six_and_one]

theorem and_three_eq_mod (dm : Nat) : dm &&& 3 = dm % 4 :=
  Nat.and_pow_two_sub_one_eq_mod dm 2

theorem divider_eq (dm : Nat) :
    divider dm =
      if dm.testBit 6 then 7
      else if dm &&& 3 = 0 then 10
      else if dm &&& 3 = 1 then 8
      else if dm &&& 3 = 2 then 5
      else 4 := by
  unfold divider
  rw [horizontalRes_eq_ite]
  have hb : dm &&& 3 < 4 := lt_of_le_of_lt Nat.and_le_right (by norm_num)
  generalize dm &&& 3 = b at hb
  cases dm.testBit 6 <;> interval_cases b <;> rfl

theorem dividers_lookup (dm : Nat) :
    dividers[horizontalRes dm]? = some (divider dm) := by
  have h := horizontalRes_lt dm
  unfold divider
  generalize horizontalRes dm = i at h
  interval_cases i <;> rfl

/-- C16, as stated, fails: the modes `0` and `0x40` agree on bits 0-2, yet the
divider is `10` for the first and `7` for the second, and with the other inputs
equal (those of `palSelectedMachine`) `updateDispArea` stores the width `256`
for the first and `364` for the second. -/
theorem bit_six_changes_divider :
    (0x40 : Nat) % 8 = 0 % 8 ∧
    divider 0 = 10 ∧
    divider 0x40 = 7 ∧
    (updateDispArea palSelectedMachine).display.m_size.x = 256 ∧
    (updateDispArea { palSelectedMachine with display :=
      { palSelectedMachine.display with m_drawMode := 0x40 } }).display.m_size.x = 364 := by
  decide

/-- C16, amended.  Bits 0, 1 and 6 of `m_drawMode` select the horizontal
resolution: two states that agree on bits 0-1 and on bit 6 of `m_drawMode` and
on `m_pal`, `x1` and `x2` get the same divider and the same stored `m_size.x`;
no other mode bit changes the divider. -/
theorem divider_selected_by_bits_0_1_6 (s t : Machine)
    (h01 : t.display.m_drawMode % 4 = s.display.m_drawMode % 4)
    (h6 : t.display.m_drawMode.testBit 6 = s.display.m_drawMode.testBit 6)
    (hpal : t.display.m_pal = s.display.m_pal)
    (hx1 : t.display.x1 = s.display.x1) (hx2 : t.display.x2 = s.display.x2) :
    divider t.display.m_drawMode = divider s.display.m_drawMode ∧
    (updateDispArea t).display.m_size.x = (updateDispArea s).display.m_size.x := by
  have hd : divider t.display.m_drawMode = divider s.display.m_drawMode := by
    rw [divider_eq, divider_eq, and_three_eq_mod, and_three_eq_mod, h01, h6]
  refine ⟨hd, ?_⟩
  simp only [updateDispArea_size]
  unfold width horizontalCycles
  rw [hd, hpal, hx1, hx2]

/-- C16 amended, instantiated on `sampleMachine` (mode `0x28`) against the same
state with mode `0x9C`, which differs in bits 2, 4, 5 and 7 only. -/
theorem divider_selected_by_bits_0_1_6_witness :
    (0x9C : Nat) % 4 = sampleMachine.display.m_drawMode % 4 ∧
    Nat.testBit 0x9C 6 = sampleMachine.display.m_drawMode.testBit 6 ∧
    divider 0x9C = divider sampleMachine.display.m_drawMode ∧
    (updateDispArea { sampleMachine with display :=
      { sampleMachine.display with m_drawMode := 0x9C } }).display.m_size.x =
      (updateDispArea sampleMachine).display.m_size.x :=
  ⟨by decide, by decide,
   (divider_selected_by_bits_0_1_6 sampleMachine
     { sampleMachine with display := { sampleMachine.display with m_drawMode := 0x9C } }
     (by decide) (by decide) rfl rfl rfl).1,
   (divider_selected_by_bits_0_1_6 sampleMachine
     { sampleMachine with display := { sampleMachine.display with m_drawMode := 0x9C } }
     (by decide) (by decide) rfl rfl rfl).2⟩

/-- C17. The divider lookup is total and matches the table: for every
`m_drawMode` the selector `((m_drawMode >> 6) & 1) | ((m_drawMode & 3) << 1)` is
below 8, so the lookup in `{10, 7, 8, 7, 5, 7, 4, 7}` is in bounds; the divider
is 7 when bit 6 is set and otherwise 10, 8, 5, 4 for `m_drawMode & 3` equal to
0, 1, 2, 3; it is positive, so neither the `int` divisions nor the `uint32_t`
division of `updateDispArea` divides by zero. -/
theorem divider_lookup_total (drawMode : Nat) :
    horizontalRes drawMode < 8 ∧
    horizontalRes drawMode < dividers.length ∧
    dividers[horizontalRes drawMode]? = some (divider drawMode) ∧
    divider drawMode =
      (if drawMode.testBit 6 then 7
       else if drawMode &&& 3 = 0 then 10
       else if drawMode &&& 3 = 1 then 8
       else if drawMode &&& 3 = 2 then 5
       else 4) ∧
    drawMode &&& 3 < 4 ∧
    0 < divider drawMode ∧
    toU32 (divider drawMode) ≠ 0 := by
  refine ⟨horizontalRes_lt drawMode, horizontalRes_lt drawMode, dividers_lookup drawMode,
    divider_eq drawMode, lt_of_le_of_lt Nat.and_le_right (by norm_num), ?_, ?_⟩
  · rcases divider_cases drawMode with h | h | h | h | h <;> rw [h] <;> norm_num
  · rcases divider_cases drawMode with h | h | h | h | h <;> rw [h] <;> decide

/-- C18. The stored size always reflects the current registers: `m_size` equals
the pair `updateDispArea` computes from the current `x1`, `x2`, `y1`, `y2`,
`m_drawMode`, `m_pal` and `m_interlace` after `reset` from any prior state, and
this is preserved by `setDisplayStart`, `setHorizontalRange`,
`setVerticalRange`, `setMode` and `setLinearFiltering` for every command, the
skipped calls included. -/
theorem size_reflects_registers (m : Machine) (command : Nat) :
    SizeCurrent (reset m) ∧
    (SizeCurrent m →
      SizeCurrent (setDisplayStart command m) ∧
      SizeCurrent (setHorizontalRange command m) ∧
      SizeCurrent (setVerticalRange command m) ∧
      SizeCurrent (setMode command m) ∧
      SizeCurrent (setLinearFiltering m)) :=
  ⟨sizeCurrent_reset m, fun h =>
    ⟨sizeCurrent_setDisplayStart command m h,
     sizeCurrent_setHorizontalRange command m h,
     sizeCurrent_setVerticalRange command m h,
     sizeCurrent_setMode command m h,
     sizeCurrent_setLinearFiltering m h⟩⟩

/-- C18, instantiated on `sampleMachine` with the mode command `0x28`, which is
skipped, and the mode command `0x1`, which is not. -/
theorem size_reflects_registers_witness :
    SizeCurrent sampleMachine ∧
    SizeCurrent (setMode 0x28 sampleMachine) ∧
    SizeCurrent (setMode 0x1 sampleMachine) :=
  ⟨by decide,
   ((size_reflects_registers sampleMachine 0x28).2 (by decide)).2.2.2.1,
   ((size_reflects_registers sampleMachine 0x1).2 (by decide)).2.2.2.1⟩

/-! ## The width as a function of the horizontal range -/

theorem and_mask_eq (X : Nat) (h : X < 2 ^ 32) : X &&& 4294967292 = X / 4 * 4 := by
  have hmod := and_mask_mod_four X
  have h2 : (X &&& 4294967292) / 2 / 2 = X / 2 / 2 &&& 4294967292 / 2 / 2 := by
    rw [Nat.and_div_two, Nat.and_div_two]
  have h3 : X / 2 / 2 &&& (2 ^ 30 - 1) = X / 2 / 2 % 2 ^ 30 :=
    Nat.and_pow_two_sub_one_eq_mod _ 30
  have hM : (4294967292 : Nat) / 2 / 2 = 2 ^ 30 - 1 := by norm_num
  rw [hM, h3] at h2
  omega

/-- The number of pixels between the clamped range bounds, in divider units. -/
theorem horizontalCycles_div (dm : Nat) (pal : Bool) (x1 x2 : Nat) :
    horizontalCycles dm pal x1 x2 / (divider dm).toNat =
      min x2 (cyclesPerScanline pal).toNat / (divider dm).toNat -
      min x1 (cyclesPerScanline pal).toNat / (divider dm).toNat := by
  have hd : 0 < (divider dm).toNat := lt_of_lt_of_le (by norm_num) (four_le_divider_toNat dm)
  rw [horizontalCycles_eq, ← Nat.sub_mul, Nat.mul_div_cancel _ hd]

/-- The stored width in closed form, over the natural numbers. -/
theorem width_eq_div (dm : Nat) (pal : Bool) (x1 x2 : Nat) :
    width dm pal x1 x2 =
      (((min x2 (cyclesPerScanline pal).toNat / (divider dm).toNat -
         min x1 (cyclesPerScanline pal).toNat / (divider dm).toNat + 2) / 4 * 4 : Nat) : Int) := by
  rw [width_eq_cast]
  have hle := horizontalCycles_le dm pal x1 x2
  have hdiv : horizontalCycles dm pal x1 x2 / (divider dm).toNat ≤ 3413 :=
    le_trans (Nat.div_le_self _ _) hle
  rw [and_mask_eq _ (by omega), horizontalCycles_div]

theorem quot_cast (x : Nat) (c d : Int) (hc : 0 ≤ c) (hd : 0 ≤ d) :
    min (x : Int) c / d = ((min x c.toNat / d.toNat : Nat) : Int) := by
  obtain ⟨cN, rfl⟩ := Int.eq_ofNat_of_zero_le hc
  obtain ⟨dN, rfl⟩ := Int.eq_ofNat_of_zero_le hd
  simp only [Int.toNat_ofNat]
  push_cast
  rfl

theorem width_mono_right (dm : Nat) (pal : Bool) (x1 x2 x2b : Nat) (h : x2 ≤ x2b) :
    width dm pal x1 x2 ≤ width dm pal x1 x2b := by
  rw [width_eq_div, width_eq_div]
  have hq : min x2 (cyclesPerScanline pal).toNat / (divider dm).toNat ≤
      min x2b (cyclesPerScanline pal).toNat / (divider dm).toNat :=
    Nat.div_le_div_right (min_le_min_right _ h)
  omega

theorem width_anti_left (dm : Nat) (pal : Bool) (x1 x1b x2 : Nat) (h : x1 ≤ x1b) :
    width dm pal x1b x2 ≤ width dm pal x1 x2 := by
  rw [width_eq_div, width_eq_div]
  have hq : min x1 (cyclesPerScanline pal).toNat / (divider dm).toNat ≤
      min x1b (cyclesPerScanline pal).toNat / (divider dm).toNat :=
    Nat.div_le_div_right (min_le_min_right _ h)
  omega

/-- C19. For fixed `m_drawMode` and `m_pal` the width `updateDispArea` stores is
non-decreasing in `x2` (for fixed `x1`) and non-increasing in `x1` (for fixed
`x2`), over all values; and whenever
`min(x2, cyclesPerScanline) >= min(x1, cyclesPerScanline)` it equals
`((min(x2, cyclesPerScanline) / divider - min(x1, cyclesPerScanline) / divider) + 2) & ~3`,
the mask `~3` being `0xFFFFFFFC` on 32 bits, that is rounding down to a
multiple of 4. -/
theorem width_monotone_in_range (m : Machine) (x1 x2 x1b x2b : Nat) :
    (updateDispArea m).display.m_size.x =
      width m.display.m_drawMode m.display.m_pal m.display.x1 m.display.x2 ∧
    (x2 ≤ x2b →
      width m.display.m_drawMode m.display.m_pal x1 x2 ≤
        width m.display.m_drawMode m.display.m_pal x1 x2b) ∧
    (x1 ≤ x1b →
      width m.display.m_drawMode m.display.m_pal x1b x2 ≤
        width m.display.m_drawMode m.display.m_pal x1 x2) ∧
    (min (x1 : Int) (cyclesPerScanline m.display.m_pal) ≤
        min (x2 : Int) (cyclesPerScanline m.display.m_pal) →
      width m.display.m_drawMode m.display.m_pal x1 x2 =
        (min (x2 : Int) (cyclesPerScanline m.display.m_pal) / divider m.display.m_drawMode -
         min (x1 : Int) (cyclesPerScanline m.display.m_pal) / divider m.display.m_drawMode + 2)
          / 4 * 4 ∧
      width m.display.m_drawMode m.display.m_pal x1 x2 =
        (((min (x2 : Int) (cyclesPerScanline m.display.m_pal) / divider m.display.m_drawMode -
          min (x1 : Int) (cyclesPerScanline m.display.m_pal) / divider m.display.m_drawMode + 2
            ).toNat &&& 0xFFFFFFFC : Nat) : Int)) := by
  refine ⟨rfl, width_mono_right _ _ _ _ _, width_anti_left _ _ _ _ _, ?_⟩
  intro hle
  have hc := cyclesPerScanline_nonneg m.display.m_pal
  have hd := divider_nonneg m.display.m_drawMode
  have hq1 := quot_cast x1 _ _ hc hd
  have hq2 := quot_cast x2 _ _ hc hd
  have hmin : min x1 (cyclesPerScanline m.display.m_pal).toNat ≤
      min x2 (cyclesPerScanline m.display.m_pal).toNat := by
    have hcN : ((cyclesPerScanline m.display.m_pal).toNat : Int) =
        cyclesPerScanline m.display.m_pal := Int.toNat_of_nonneg hc
    omega
  have hq : min x1 (cyclesPerScanline m.display.m_pal).toNat / (divider m.display.m_drawMode).toNat
      ≤ min x2 (cyclesPerScanline m.display.m_pal).toNat / (divider m.display.m_drawMode).toNat :=
    Nat.div_le_div_right hmin
  have hq2le : min x2 (cyclesPerScanline m.display.m_pal).toNat
      / (divider m.display.m_drawMode).toNat ≤ 3413 :=
    le_trans (Nat.div_le_self _ _)
      (le_trans (min_le_right _ _) (cyclesPerScanline_toNat_le _))
  have hw := width_eq_div m.display.m_drawMode m.display.m_pal x1 x2
  rw [hq1, hq2]
  generalize min x2 (cyclesPerScanline m.display.m_pal).toNat
    / (divider m.display.m_drawMode).toNat = q2 at hq hq2le hw ⊢
  generalize min x1 (cyclesPerScanline m.display.m_pal).toNat
    / (divider m.display.m_drawMode).toNat = q1 at hq hw ⊢
  constructor
  · rw [hw]
    omega
  · have hnat : (((q2 : Int) - (q1 : Int) + 2).toNat) = q2 - q1 + 2 := by omega
    have hlt : q2 - q1 + 2 < 2 ^ 32 := by omega
    rw [hnat, hw, and_mask_eq _ hlt]

/-- C19, instantiated on `sampleMachine` (PAL, divider 10): widening the range
from `0x260 .. 0xc60` to `0x260 .. 0xd00` does not shrink the width, and the
closed form holds for `0x260 .. 0xc60`. -/
theorem width_monotone_in_range_witness :
    (0xc60 : Nat) ≤ 0xd00 ∧
    width sampleMachine.display.m_drawMode sampleMachine.display.m_pal 0x260 0xc60 ≤
      width sampleMachine.display.m_drawMode sampleMachine.display.m_pal 0x260 0xd00 ∧
    width sampleMachine.display.m_drawMode sampleMachine.display.m_pal 0x260 0xc60 =
      (min ((0xc60 : Nat) : Int) (cyclesPerScanline sampleMachine.display.m_pal)
          / divider sampleMachine.display.m_drawMode -
       min ((0x260 : Nat) : Int) (cyclesPerScanline sampleMachine.display.m_pal)
          / divider sampleMachine.display.m_drawMode + 2) / 4 * 4 :=
  ⟨by decide,
   (width_monotone_in_range sampleMachine 0x260 0xc60 0x260 0xd00).2.1 (by decide),
   ((width_monotone_in_range sampleMachine 0x260 0xc60 0x260 0xd00).2.2.2 (by decide)).1⟩

/-! ## `reset` from a state with stale flags -/

/-- What `reset` leaves when the stored mode is already `0`: `setMode(0)` is
skipped, so `m_pal`, `m_rgb24` and `m_interlace` keep their prior values and the
size is derived from them. -/
theorem reset_of_drawMode_zero (m : Machine) (hmode : m.display.m_drawMode = 0) :
    (reset m).display.m_pal = m.display.m_pal ∧
    (reset m).display.m_rgb24 = m.display.m_rgb24 ∧
    (reset m).display.m_interlace = m.display.m_interlace ∧
    (reset m).display.m_size =
      ⟨width 0 m.display.m_pal 0x200 (0x200 + 2560),
       height m.display.m_pal m.display.m_interlace 0x10 (0x10 + 0x240)⟩ := by
  let m1 : Machine :=
    { m with display :=
        { m.display with
          x1 := 0x200, x2 := 0x200 + 256 * 10, y1 := 0x10, y2 := 0x10 + 0x240,
          m_enabled := false } }
  have hskip : setMode 0 m1 = m1 := setMode_of_eq 0 m1 hmode
  have hreset : reset m = updateDispArea (setDisplayStart 0 (setMode 0 m1)) := rfl
  obtain ⟨g1, g2, g3, g4, -, g6, g7, g8, g9, -, -⟩ := setDisplayStart_frame 0 m1
  rw [hreset, hskip]
  refine ⟨?_, ?_, ?_, ?_⟩
  · rw [updateDispArea_pal, g7]
  · rw [updateDispArea_rgb24, g8]
  · rw [updateDispArea_interlace, g9]
  · rw [updateDispArea_size, g1, g2, g3, g4, g6, g7, g9]
    show (⟨width m.display.m_drawMode m.display.m_pal 0x200 (0x200 + 256 * 10),
      height m.display.m_pal m.display.m_interlace 0x10 (0x10 + 0x240)⟩ : IVec2) = _
    rw [hmode]

/-- C20. `reset` does not re-derive the flags when the stored `m_drawMode` is
already `0`.  There is a prior state with `m_drawMode = 0` and `m_pal = true`
from which `reset` leaves `m_pal = true` and stores `m_size = (256, 298)`, not
the cold-boot `(256, 247)`.  For every prior state with `m_drawMode = 0` and
`m_pal = true`, whatever its other members, `setMode(0)` is skipped inside
`reset`, `m_pal` is still true afterwards and the stored size is `(256, 298)`
when `m_interlace` is false (and `(256, 596)` when the equally stale
`m_interlace` is true).  So the result of `reset` depends on the prior state:
two prior states give different sizes. -/
theorem reset_keeps_stale_flags :
    (∃ m : Machine, m.display.m_drawMode = 0 ∧ m.display.m_pal = true ∧
      (reset m).display.m_pal = true ∧ (reset m).display.m_size = ⟨256, 298⟩ ∧
      (reset m).display.m_size ≠ ⟨256, 247⟩) ∧
    (∀ m : Machine, m.display.m_drawMode = 0 → m.display.m_pal = true →
      setMode 0 m = m ∧
      ¬ FlagsConsistent m.display ∧
      (reset m).display.m_pal = true ∧
      (reset m).display.m_size = ⟨256, if m.display.m_interlace then 596 else 298⟩ ∧
      (reset m).display.m_size ≠ ⟨256, 247⟩) ∧
    (∃ m k : Machine, (reset m).display.m_size ≠ (reset k).display.m_size) := by
  have hall : ∀ m : Machine, m.display.m_drawMode = 0 → m.display.m_pal = true →
      setMode 0 m = m ∧
      ¬ FlagsConsistent m.display ∧
      (reset m).display.m_pal = true ∧
      (reset m).display.m_size = ⟨256, if m.display.m_interlace then 596 else 298⟩ ∧
      (reset m).display.m_size ≠ ⟨256, 247⟩ := by
    intro m hmode hpal
    obtain ⟨r1, -, -, r4⟩ := reset_of_drawMode_zero m hmode
    have hsize : (reset m).display.m_size =
        ⟨256, if m.display.m_interlace then 596 else 298⟩ := by
      rw [r4, hpal]
      cases m.display.m_interlace <;> decide
    refine ⟨setMode_of_eq 0 m hmode, ?_, by rw [r1, hpal], hsize, ?_⟩
    · intro hc
      have h3 := hc.1
      rw [hpal, hmode] at h3
      exact absurd h3 (by decide)
    · rw [hsize]
      cases m.display.m_interlace <;> decide
  refine ⟨⟨stalePalMachine, rfl, rfl, ?_, ?_, ?_⟩, hall, ⟨stalePalMachine, palSelectedMachine, ?_⟩⟩
  · exact (hall stalePalMachine rfl rfl).2.2.1
  · exact (hall stalePalMachine rfl rfl).2.2.2.1
  · exact (hall stalePalMachine rfl rfl).2.2.2.2
  · decide

/-- C20, instantiated on `stalePalMachine` (`m_drawMode = 0`, `m_pal = true`,
`m_interlace = false`). -/
theorem reset_keeps_stale_flags_witness :
    stalePalMachine.display.m_drawMode = 0 ∧
    stalePalMachine.display.m_pal = true ∧
    (reset stalePalMachine).display.m_pal = true ∧
    (reset stalePalMachine).display.m_size =
      ⟨256, if stalePalMachine.display.m_interlace then 596 else 298⟩ :=
  ⟨by decide, by decide,
   (reset_keeps_stale_flags.2.1 stalePalMachine (by decide) (by decide)).2.2.1,
   (reset_keeps_stale_flags.2.1 stalePalMachine (by decide) (by decide)).2.2.2.1⟩

end Display

end PCSX
